import Mathlib

/-! remount: mountpoint resolution and per-mountpoint execution.

A shallow embedding of `src/remount/main.c`.  The program is a single C
function `main`; the embedding follows its commented sections
(get remount mode, check permissions, get list of mountpoint, check for
possible overflow, run command) and composes them in `main`.

Conventions of the embedding:

* a C string is the list of its bytes before the terminating NUL;
* a `malloc`ed mountpoint slot is the list of its `MOUNTPOINT_MAX_PATH`
  cells; reading it as a string stops at the first NUL cell, and a slot
  without any NUL cell cannot be read without running past the allocation;
* the working buffer `buffer[BUFSIZ]` holds a C string, and a `strcpy` or
  `strcat` that would not fit (with the terminating NUL) is an overflow;
* everything the process does to the outside is recorded, in order, as a
  list of events; the environment (uids, files, `malloc`, `system`,
  `BUFSIZ`) is a record of values and oracles.
-/

namespace Remount

/-! ## Strings and the C library -/

/-- Bytes of a C string, the terminating NUL left implicit. -/
abbrev CStr := List Char

/-- The terminating byte of C strings. -/
def NUL : Char := Char.ofNat 0

/-- The C string stored at the start of a memory region: the bytes before
the first NUL (or all of them when the region is itself a string). -/
def cstr (mem : List Char) : CStr := mem.takeWhile (fun c => c != NUL)

/-- Model of `strncmp(a, b, n)`: the sign-carrying difference of the first
differing bytes among the first `n`, the end of a string counting as
byte 0. -/
def strncmp : CStr → CStr → Nat → Int
  | _, _, 0 => 0
  | [], [], _ + 1 => 0
  | [], b :: _, _ + 1 => 0 - (b.toNat : Int)
  | a :: _, [], _ + 1 => (a.toNat : Int)
  | a :: as, b :: bs, n + 1 =>
    if a = b then strncmp as bs n else (a.toNat : Int) - (b.toNat : Int)

/-- Model of `strncpy(dst, src, n)`: the `n` cells written to `dst`, which
are the first `n` bytes of the string `src`, padded with NUL when `src` is
shorter than `n`.  No NUL is written when `src` has `n` bytes or more. -/
def strncpy (src : List Char) (n : Nat) : List Char :=
  (cstr src).take n ++ List.replicate (n - ((cstr src).take n).length) NUL

/-- Reading a mountpoint slot as a C string (`strcat(buffer, slot)`,
`"%s"`): the bytes before the first NUL cell; `none` when the slot holds
no NUL, in which case the read runs past the allocation. -/
def readCStr (mem : List Char) : Option CStr :=
  if NUL ∈ mem then some (cstr mem) else none

/-- Model of `strcspn(s, reject)`: length of the longest initial part of the
string `s` free of the bytes of `reject`. -/
def strcspn (s : List Char) (reject : CStr) : Nat :=
  ((cstr s).takeWhile (fun c => !(reject.contains c))).length

/-- The bytes one `fgets` call stores: at most `m` bytes of the stream, up to
and including the first newline; returned with the unread rest. -/
def fgetsRead : Nat → List Char → List Char × List Char
  | 0, s => ([], s)
  | _ + 1, [] => ([], [])
  | m + 1, c :: s =>
    if c = '\n' then ([c], s)
    else ((c :: (fgetsRead m s).1), (fgetsRead m s).2)

/-- Model of `fgets(buffer, n, stream) != NULL`: `none` is the NULL return
(end of file before any byte, or `n` zero); otherwise the bytes stored in
`buffer` (before the NUL that `fgets` appends) and the rest of the stream.
With `n = 1` nothing is read and the empty string is stored. -/
def fgets (n : Nat) (stream : List Char) : Option (List Char × List Char) :=
  if n = 0 then none
  else if n = 1 then some ([], stream)
  else if stream = [] then none
  else some (fgetsRead (n - 1) stream)

/-- Model of `strcpy(buffer, src)` into a buffer of `cap` bytes: the new
string held by the buffer, `none` when `src` and its NUL do not fit. -/
def strcpy (cap : Nat) (src : CStr) : Option CStr :=
  if src.length + 1 ≤ cap then some src else none

/-- Model of `strcat(buffer, src)` into a buffer of `cap` bytes: the new
string held by the buffer, `none` when the result and its NUL do not fit. -/
def strcat (cap : Nat) (buffer : CStr) (src : CStr) : Option CStr :=
  if buffer.length + src.length + 1 ≤ cap then some (buffer ++ src) else none

/-! ## Static configuration -/

def CONFIG_FILE : CStr := "/etc/remount.conf".toList
def DEFCONFIG_FILE : CStr := "/usr/local/share/remount/remount.conf.default".toList
def MOUNTPOINT_MAX_COUNT : Nat := 16
def MOUNTPOINT_MAX_PATH : Nat := 256

def REMOUNT_COMMAND_START : CStr := "mount -o remount,".toList
def REMOUNT_COMMAND_RO : CStr := "ro \"".toList
def REMOUNT_COMMAND_RW : CStr := "rw \"".toList
def REMOUNT_COMMAND_END : CStr := "\"".toList

/-- Value of `sizeof` on the concatenated literals: their bytes and the NUL. -/
def REMOUNT_COMMAND_LENGTH : Nat :=
  (REMOUNT_COMMAND_START ++ REMOUNT_COMMAND_RO ++ REMOUNT_COMMAND_END).length + 1

def CHECK_COMMAND_START : CStr :=
  "awk '$4~/(^|,)r?($|,)/' /proc/mounts | grep -q \" ".toList
def CHECK_COMMAND_END : CStr := " \"".toList
def CHECK_COMMAND_INDEX : Nat := 15

/-- Value of `sizeof` on the concatenated literals: their bytes and the NUL. -/
def CHECK_COMMAND_LENGTH : Nat :=
  (CHECK_COMMAND_START ++ CHECK_COMMAND_END).length + 1

/-- The preprocessor definition `MAX(X, Y)`. -/
def MAX (X Y : Nat) : Nat := if X < Y then Y else X

inductive remount_mode where
  | READ_ONLY
  | READ_WRITE
  | CHECK
  deriving DecidableEq, Repr

open remount_mode

/-! ## Environment, events and runs -/

/-- What the process sees of the outside. -/
structure World where
  /-- Argument vector; `argc` is its length. -/
  argv : List CStr
  /-- Result of `geteuid()`. -/
  euid : Nat
  /-- Result of `getuid()`. -/
  uid : Nat
  /-- Contents of `CONFIG_FILE`, `none` when `fopen` fails. -/
  config : Option (List Char)
  /-- Contents of `DEFCONFIG_FILE`, `none` when `fopen` fails. -/
  defconfig : Option (List Char)
  /-- Text of `strerror(errno)` after both `fopen` calls failed. -/
  strerror : CStr
  /-- Whether the `malloc` call for slot `k` returns a non-NULL pointer. -/
  malloc : Nat → Bool
  /-- Status returned by the `n`-th `system` call (from 0) on its command. -/
  system : Nat → CStr → Int
  /-- The constant `BUFSIZ` of `<stdio.h>`. -/
  BUFSIZ : Nat

/-- Observable actions of the process. -/
inductive Event where
  | stdout (text : CStr)
  | stderr (text : CStr)
  | setuid (uid : Nat)
  | system (command : CStr)
  deriving DecidableEq, Repr

/-- How a run ends. -/
inductive Outcome where
  /-- The process terminates with this exit status. -/
  | exit (status : Nat)
  /-- A read past the end of an allocation or a write past the end of the
  working buffer: the C standard gives the rest of the run no meaning. -/
  | undefined
  /-- The configuration loop makes no progress and never ends. -/
  | diverges
  deriving DecidableEq, Repr

/-- A run: the events in order, and how it ends. -/
structure Run where
  trace : List Event
  outcome : Outcome
  deriving DecidableEq, Repr

deriving instance DecidableEq for Except

/-- The run that first performs `events` and then continues as `r`. -/
def Run.after (events : List Event) (r : Run) : Run :=
  ⟨events ++ r.trace, r.outcome⟩

/-- Continue with the value of a memory operation, or stop with undefined
behaviour when the operation leaves the bounds of its object. -/
def orUndefined {α : Type} (o : Option α) (k : α → Run) : Run :=
  match o with
  | none => ⟨[], Outcome.undefined⟩
  | some a => k a

/-- Decimal rendering of `"%d"`. -/
def fmtd (n : Nat) : CStr := (Nat.repr n).toList

/-- The function `die`: `"Error: "`, the formatted message and a newline on
stderr (the three writes recorded as one event), then `exit(error)`. -/
def die (error : Nat) (message : CStr) : Run :=
  ⟨[Event.stderr ("Error: ".toList ++ message ++ "\n".toList)], Outcome.exit error⟩

/-- The function `help`: the usage text on stdout, then `exit(0)`. -/
def help : Run :=
  ⟨[Event.stdout
      ("Usage: remount ro|rw|ch [MOUNTPOINT]...\n".toList
        ++ "Quickly manage read-only/read-write mountpoints\n".toList
        ++ "\tro\tRemount read-only\n".toList
        ++ "\trw\tRemount read-write\n".toList
        ++ "\tch\tCheck mount state (ro/rw)\n".toList
        ++ "\t--help\tPrint this help message\n".toList
        ++ "MOUNTPOINT: A list of mountpoint to remount or check\n".toList
        ++ "Default mountpoint list is defined in the configuration file.\n".toList
        ++ "Configuration file is \"".toList ++ CONFIG_FILE ++ "\". ".toList
        ++ "If no configuration file is found, the program uses the ".toList
        ++ "default configuration file located in \"".toList ++ DEFCONFIG_FILE
        ++ "\".\n".toList)],
    Outcome.exit 0⟩

/-! ## The sections of `main` -/

/-- Section "Get remount mode" for `argc >= 2`: the mode chosen by
`argv[1]`, or the run that ends the program (`help`, or `die(1, ...)`). -/
def getRemountMode (argv0 argv1 : CStr) : Except Run remount_mode :=
  if strncmp argv1 "ro".toList 2 = 0 then Except.ok READ_ONLY
  else if strncmp argv1 "rw".toList 2 = 0 then Except.ok READ_WRITE
  else if strncmp argv1 "ch".toList 2 = 0 then Except.ok CHECK
  else if strncmp argv1 "--help".toList 6 = 0 ∨ strncmp argv1 "-h".toList 2 = 0 then
    Except.error help
  else
    Except.error (die 1 ("Unknown mode \"".toList ++ cstr argv1 ++ "\"\nRun \"".toList
      ++ cstr argv0 ++ " --help\" to get help".toList))

/-- Section "Check permissions": the fatal run when the identity does not
allow the mode, `none` when the program goes on. -/
def checkPermissions (w : World) (mode : remount_mode) : Option Run :=
  if mode ≠ CHECK ∧ w.euid ≠ 0 then
    some (die 2 "The program must be run as root".toList)
  else if mode = READ_WRITE ∧ w.uid ≠ 0 then
    some (die 2 "Remounting read-write requires root permissions".toList)
  else none

/-- Section "Parse configuration": the `while` loop over the lines that
`fgets` delivers.  `mountpoints` holds the slots filled so far and `k` is its
length.  Each iteration uses one unit of `fuel`; running out of it means the
loop was still going. -/
def parseConfiguration (w : World) :
    Nat → List Char → List (List Char) → Except Run (List (List Char))
  | 0, _, _ => Except.error ⟨[], Outcome.diverges⟩
  | fuel + 1, config, mountpoints =>
    if mountpoints.length < MOUNTPOINT_MAX_COUNT then
      match fgets w.BUFSIZ config with
      | none => Except.ok mountpoints
      | some (buffer, config) =>
        -- Check for comments of empty lines
        if buffer.getD 0 NUL = NUL ∨ buffer.getD 0 NUL = '\n'
            ∨ buffer.getD 0 NUL = '\r' ∨ buffer.getD 0 NUL = '#' then
          parseConfiguration w fuel config mountpoints
        else if w.malloc mountpoints.length = false then
          Except.error (die 4 "Memory allocation error".toList)
        -- Remove trailing new line
        else if strcspn buffer "\r\n".toList ≥ MOUNTPOINT_MAX_PATH then
          Except.error (die 3 ("Path too large, maximum is ".toList ++ fmtd MOUNTPOINT_MAX_PATH))
        else
          parseConfiguration w fuel config
            (mountpoints ++
              [strncpy (buffer.set (strcspn buffer "\r\n".toList) NUL) MOUNTPOINT_MAX_PATH])
    else Except.ok mountpoints

/-- Section "Parse arguments": the `for` loop from `i = 2`.  `argv` is the
part of the argument vector from index `i` on, so `i < argc` holds exactly
when it is not empty. -/
def parseArguments (w : World) :
    Nat → List CStr → List (List Char) → Except Run (List (List Char))
  | _, [], mountpoints => Except.ok mountpoints
  | i, arg :: argv, mountpoints =>
    if i < MOUNTPOINT_MAX_COUNT then
      if w.malloc mountpoints.length = false then
        Except.error (die 4 "Memory allocation error".toList)
      else
        parseArguments w (i + 1) argv (mountpoints ++ [strncpy arg MOUNTPOINT_MAX_PATH])
    else Except.ok mountpoints

/-- Section "Get list of mountpoint".  `args` is `argv` from index 2 on, so
`argc == 2` holds exactly when it is empty. -/
def getMountpoints (w : World) (args : List CStr) : Except Run (List (List Char)) :=
  match args with
  | [] =>
    match w.config.orElse (fun _ => w.defconfig) with
    | none =>
      Except.error (die 3 ("Could not access configuration files \"".toList ++ CONFIG_FILE
        ++ "\" and \"".toList ++ DEFCONFIG_FILE ++ "\": ".toList ++ w.strerror))
    | some config => parseConfiguration w (config.length + 1) config []
  | _ :: _ => parseArguments w 2 args []

/-- The remount loop of section "Run command"; `n` counts the `system`
calls made so far. -/
def remountLoop (w : World) (mode : remount_mode) : List (List Char) → Nat → Run
  | [], _ => ⟨[], Outcome.exit 0⟩
  | mountpoint :: mountpoints, n =>
    orUndefined (strcpy w.BUFSIZ REMOUNT_COMMAND_START) fun buffer =>
    match (if mode = READ_ONLY then some REMOUNT_COMMAND_RO
           else if mode = READ_WRITE then some REMOUNT_COMMAND_RW
           else none) with
    | none => die 255 "No mode selected, this should never happen".toList
    | some option =>
      orUndefined (strcat w.BUFSIZ buffer option) fun buffer =>
      orUndefined (readCStr mountpoint) fun path =>
      orUndefined (strcat w.BUFSIZ buffer path) fun buffer =>
      orUndefined (strcat w.BUFSIZ buffer REMOUNT_COMMAND_END) fun buffer =>
      Run.after
        (Event.system buffer ::
          (if w.system n buffer ≠ 0 then
            [Event.stderr ("Warning: Could not remount \"".toList ++ path ++ "\"".toList)]
          else []))
        (remountLoop w mode mountpoints (n + 1))

/-- The check loop of section "Run command"; `n` counts the `system` calls
made so far and `rw` is the variable `rw`, `none` while it has never been
assigned (reading it then has no defined value). -/
def checkLoop (w : World) : List (List Char) → Nat → Option Int → Run
  | [], _, _ => ⟨[], Outcome.exit 0⟩
  | mountpoint :: mountpoints, n, rw =>
    orUndefined (strcpy w.BUFSIZ CHECK_COMMAND_START) fun buffer =>
    orUndefined (readCStr mountpoint) fun path =>
    orUndefined (strcat w.BUFSIZ buffer path) fun buffer =>
    orUndefined (strcat w.BUFSIZ buffer CHECK_COMMAND_END) fun buffer =>
    -- ro and rw are the exit status of the grep commands
    let buffer := buffer.set CHECK_COMMAND_INDEX 'o'
    let ro := w.system n buffer
    let calls := [Event.system buffer]
    let buffer := buffer.set CHECK_COMMAND_INDEX 'w'
    let rw := if ro ≠ 0 then some (w.system (n + 1) buffer) else rw
    let calls := if ro ≠ 0 then calls ++ [Event.system buffer] else calls
    let n := if ro ≠ 0 then n + 2 else n + 1
    if ro = 0 then
      Run.after (calls ++ [Event.stdout (path ++ " is ro\n".toList)])
        (checkLoop w mountpoints n rw)
    else
      match rw with
      | none => ⟨calls, Outcome.undefined⟩
      | some rwStatus =>
        if rwStatus = 0 then
          Run.after (calls ++ [Event.stdout (path ++ " is rw\n".toList)])
            (checkLoop w mountpoints n rw)
        else
          Run.after (calls ++ [Event.stdout (path ++ " is not mounted\n".toList)])
            (checkLoop w mountpoints n rw)

/-- Section "Run command". -/
def runCommand (w : World) (mode : remount_mode) (mountpoints : List (List Char)) : Run :=
  if mode = READ_ONLY ∨ mode = READ_WRITE then
    -- Remount needs real UID = 0
    Run.after [Event.setuid 0] (remountLoop w mode mountpoints 0)
  else if mode = CHECK then checkLoop w mountpoints 0 none
  else ⟨[], Outcome.exit 0⟩

/-- Section "Check for possible overflow", followed by "Run command". -/
def checkOverflowAndRun (w : World) (mode : remount_mode)
    (mountpoints : List (List Char)) : Run :=
  if mountpoints.length ≥ MOUNTPOINT_MAX_COUNT then
    die 5 ("To many mountpoints, maximum is ".toList ++ fmtd MOUNTPOINT_MAX_COUNT)
  else if w.BUFSIZ < MAX (MOUNTPOINT_MAX_PATH + REMOUNT_COMMAND_LENGTH)
      (MOUNTPOINT_MAX_PATH + CHECK_COMMAND_LENGTH) then
    die 4 ("Buffer size BUFSIZE is ".toList ++ fmtd w.BUFSIZ
      ++ " while the maxumal command size is ".toList
      ++ fmtd (MAX (MOUNTPOINT_MAX_PATH + REMOUNT_COMMAND_LENGTH)
          (MOUNTPOINT_MAX_PATH + CHECK_COMMAND_LENGTH))
      ++ ", risk of overflow".toList)
  else runCommand w mode mountpoints

/-- The program. -/
def main (w : World) : Run :=
  match w.argv with
  | [] => die 1 "Expected at least one argument, use --help to get help".toList
  | [_] => die 1 "Expected at least one argument, use --help to get help".toList
  | argv0 :: argv1 :: args =>
    match getRemountMode argv0 argv1 with
    | Except.error r => r
    | Except.ok mode =>
      match checkPermissions w mode with
      | some r => r
      | none =>
        match getMountpoints w args with
        | Except.error r => r
        | Except.ok mountpoints => checkOverflowAndRun w mode mountpoints

/-! ## Specification-level definitions -/

/-- A mountpoint path that fits a slot with its NUL: a string (no NUL byte
inside) shorter than `MOUNTPOINT_MAX_PATH`. -/
def IsPath (p : CStr) : Prop := NUL ∉ p ∧ p.length < MOUNTPOINT_MAX_PATH

instance (p : CStr) : Decidable (IsPath p) :=
  inferInstanceAs (Decidable (NUL ∉ p ∧ p.length < MOUNTPOINT_MAX_PATH))

/-- The commands passed to `system`, in order. -/
def systemCalls : List Event → List CStr
  | [] => []
  | Event.system c :: t => c :: systemCalls t
  | _ :: t => systemCalls t

/-- The texts written to stdout, in order. -/
def stdoutOf : List Event → List CStr
  | [] => []
  | Event.stdout c :: t => c :: stdoutOf t
  | _ :: t => stdoutOf t

/-- The texts written to stderr, in order. -/
def stderrOf : List Event → List CStr
  | [] => []
  | Event.stderr c :: t => c :: stderrOf t
  | _ :: t => stderrOf t

/-- Events of the remount loop over the paths `ps`, the next `system` call
being the `n`-th: one command per path, followed by a warning when the call
returns non-zero. -/
def remountEvents (system : Nat → CStr → Int) (option : CStr) : Nat → List CStr → List Event
  | _, [] => []
  | n, p :: ps =>
    Event.system (REMOUNT_COMMAND_START ++ option ++ p ++ REMOUNT_COMMAND_END) ::
      ((if system n (REMOUNT_COMMAND_START ++ option ++ p ++ REMOUNT_COMMAND_END) ≠ 0 then
          [Event.stderr ("Warning: Could not remount \"".toList ++ p ++ "\"".toList)]
        else []) ++ remountEvents system option (n + 1) ps)

/-- The read-only probe of a path, as a command. -/
def roProbe (p : CStr) : CStr :=
  "awk '$4~/(^|,)ro($|,)/' /proc/mounts | grep -q \" ".toList ++ p ++ " \"".toList

/-- The read-write probe of a path, as a command. -/
def rwProbe (p : CStr) : CStr :=
  "awk '$4~/(^|,)rw($|,)/' /proc/mounts | grep -q \" ".toList ++ p ++ " \"".toList

/-- Events of one check iteration on path `p`, the next `system` call being
the `n`-th. -/
def checkEvents (system : Nat → CStr → Int) (n : Nat) (p : CStr) : List Event :=
  if system n (roProbe p) = 0 then
    [Event.system (roProbe p), Event.stdout (p ++ " is ro\n".toList)]
  else
    [Event.system (roProbe p), Event.system (rwProbe p),
     Event.stdout (if system (n + 1) (rwProbe p) = 0 then p ++ " is rw\n".toList
                   else p ++ " is not mounted\n".toList)]

/-- Number of `system` calls of one check iteration on path `p`. -/
def checkCalls (system : Nat → CStr → Int) (n : Nat) (p : CStr) : Nat :=
  if system n (roProbe p) = 0 then 1 else 2

/-- Events of the check loop over the paths `ps`, the next `system` call
being the `n`-th. -/
def checkLoopEvents (system : Nat → CStr → Int) : Nat → List CStr → List Event
  | _, [] => []
  | n, p :: ps =>
    checkEvents system n p ++ checkLoopEvents system (n + checkCalls system n p) ps

/-- The report of Check mode as the specification words it: one line per
mountpoint in order, "is ro" when the read-only probe succeeded, else
"is rw" when the read-write probe succeeded, else "is not mounted".  `n` is
the index of the mountpoint's first probe among the backend calls. -/
def specCheckReport (system : Nat → CStr → Int) : Nat → List CStr → List CStr
  | _, [] => []
  | n, p :: ps =>
    if system n (roProbe p) = 0 then
      (p ++ " is ro\n".toList) :: specCheckReport system (n + 1) ps
    else if system (n + 1) (rwProbe p) = 0 then
      (p ++ " is rw\n".toList) :: specCheckReport system (n + 2) ps
    else
      (p ++ " is not mounted\n".toList) :: specCheckReport system (n + 2) ps

/-- The remount command of a path as the specification writes it. -/
def specRemountCommand (mode : remount_mode) (p : CStr) : CStr :=
  (if mode = READ_ONLY then "mount -o remount,ro \"".toList
   else "mount -o remount,rw \"".toList) ++ p ++ "\"".toList

/-- The warning of a failed remount, naming the path. -/
def remountWarning (p : CStr) : CStr :=
  "Warning: Could not remount \"".toList ++ p ++ "\"".toList

/-- The same world with another backend behaviour. -/
def World.withSystem (w : World) (system : Nat → CStr → Int) : World :=
  { w with system := system }

/-- Every slot holds a NUL-terminated string in at most
`MOUNTPOINT_MAX_PATH` cells. -/
def Terminated (slots : List (List Char)) : Prop :=
  ∀ s ∈ slots, NUL ∈ s ∧ s.length ≤ MOUNTPOINT_MAX_PATH

/-- The lines of a text, each with its newline; the last one may lack it. -/
def splitLines : List Char → List (List Char)
  | [] => []
  | c :: cs =>
    if c = '\n' then [c] :: splitLines cs
    else
      match splitLines cs with
      | [] => [[c]]
      | l :: ls => (c :: l) :: ls

/-- A configuration line is skipped, in the words of the specification, if it
is empty or its first character is the comment sign or a line terminator. -/
def specSkipped (line : List Char) : Bool :=
  match line with
  | [] => true
  | c :: _ => c == '#' || c == '\n' || c == '\r'

/-- A configuration line with its trailing line terminator, `"\r\n"` or
`"\n"`, stripped and otherwise unchanged. -/
def specStrip (line : List Char) : List Char :=
  if "\r\n".toList <:+ line then line.take (line.length - 2)
  else if "\n".toList <:+ line then line.take (line.length - 1)
  else line

/-- The mountpoint paths of a configuration file as the specification words
them: the lines that are not skipped, terminators stripped, in file order. -/
def specConfigPaths (content : List Char) : List CStr :=
  ((splitLines content).filter (fun l => !specSkipped l)).map specStrip

/-- A configuration line the parser reads as the specification describes:
it fits the line buffer with its NUL, holds no NUL byte, and, unless it is
skipped, its path holds no carriage return and is shorter than
`MOUNTPOINT_MAX_PATH`. -/
def ConfigLineOk (cap : Nat) (line : List Char) : Prop :=
  line.length < cap ∧ NUL ∉ line ∧
    (specSkipped line = true ∨
      ('\r' ∉ specStrip line ∧ (specStrip line).length < MOUNTPOINT_MAX_PATH))

instance (cap : Nat) (line : List Char) : Decidable (ConfigLineOk cap line) :=
  inferInstanceAs (Decidable (line.length < cap ∧ NUL ∉ line ∧
    (specSkipped line = true ∨
      ('\r' ∉ specStrip line ∧ (specStrip line).length < MOUNTPOINT_MAX_PATH))))

/-- A world for examples: root or not, an optional `CONFIG_FILE`, no
`DEFCONFIG_FILE`, allocations that succeed and `BUFSIZ` 8192. -/
def sampleWorld (argv : List String) (euid uid : Nat) (config : Option (List Char))
    (system : Nat → CStr → Int) : World :=
  ⟨argv.map String.toList, euid, uid, config, none,
    "No such file or directory".toList, fun _ => true, system, 8192⟩

/-- The slots that hold, in order, the paths of the mountpoint lines `ls`. -/
def lineSlots (ls : List (List Char)) : List (List Char) :=
  ((ls.filter (fun l => !specSkipped l)).map specStrip).map
    (fun p => strncpy p MOUNTPOINT_MAX_PATH)

/-- The entries of the mountpoint source of an invocation: the mountpoint
arguments when there are any, else the mountpoint lines of the configuration
file that opens, read as the specification describes. -/
def MountpointSource (w : World) (args : List CStr) (entries : List CStr) : Prop :=
  (args ≠ [] ∧ entries = args) ∨
    (args = [] ∧ ∃ content, w.config.orElse (fun _ => w.defconfig) = some content
      ∧ (∀ l ∈ splitLines content, ConfigLineOk w.BUFSIZ l)
      ∧ entries = specConfigPaths content)

/-- Sixteen mountpoint lines. -/
def sixteenLines : List Char :=
  (List.replicate 16 "/a\n".toList).flatten

/-- Seventeen mountpoint lines. -/
def seventeenLines : List Char :=
  (List.replicate 17 "/a\n".toList).flatten

/-- Fifteen mountpoint arguments after the mode. -/
def fifteenArgs : List String :=
  ["remount", "ch", "/m1", "/m2", "/m3", "/m4", "/m5", "/m6", "/m7", "/m8", "/m9", "/m10",
    "/m11", "/m12", "/m13", "/m14", "/m15"]

/-- Seventeen mountpoint arguments after the mode. -/
def seventeenArgs : List String :=
  ["remount", "ch", "/m1", "/m2", "/m3", "/m4", "/m5", "/m6", "/m7", "/m8", "/m9", "/m10",
    "/m11", "/m12", "/m13", "/m14", "/m15", "/m16", "/m17"]

/-- The invocation `remount ch` followed by one argument of 257 bytes, by
any user, every probe succeeding. -/
def longArgWorld : World :=
  ⟨["remount".toList, "ch".toList, List.replicate 257 'a'], 1000, 1000, none, none, [],
    fun _ => true, fun _ _ => 0, 8192⟩

/-- The bytes of a line that `strcspn(buffer, "\r\n")` counts: those before
its first carriage return or newline. -/
def pathBytes (line : List Char) : List Char :=
  line.takeWhile (fun c => !("\r\n".toList.contains c))

/-- A configuration file with a comment, a blank line and two mountpoint
lines, the second ended by a carriage return and a newline. -/
def sampleConfig : List Char := "# mountpoints\n\n/a\n/b\r\n".toList

/-- The invocation `remount ch` by an ordinary user with `sampleConfig` as
configuration file; every read-only probe fails and every read-write probe
succeeds. -/
def configWorld : World :=
  sampleWorld ["remount", "ch"] 1000 1000 (some sampleConfig)
    (fun _ c => if c.getD CHECK_COMMAND_INDEX NUL = 'o' then 1 else 0)

/-- The invocation `remount ro /A /B /C` by root, the second `system` call
failing and the others succeeding. -/
def abcWorld : World :=
  sampleWorld ["remount", "ro", "/A", "/B", "/C"] 0 0 none
    (fun n _ => if n = 1 then 1 else 0)

/-- The invocation `remount ch /` by an ordinary user, the read-only probe
failing and the read-write probe succeeding. -/
def rootCheckWorld : World :=
  sampleWorld ["remount", "ch", "/"] 1000 1000 none
    (fun n _ => if n = 0 then 1 else 0)

/-- The invocation `remount rw` with effective uid 0 and real uid 1000. -/
def rwRealUserWorld : World :=
  sampleWorld ["remount", "rw"] 0 1000 (some sampleConfig) (fun _ _ => 0)

/-- The invocation `remount ro /data /backup` by an ordinary user. -/
def roUserWorld : World :=
  sampleWorld ["remount", "ro", "/data", "/backup"] 1000 1000 none (fun _ _ => 0)

/-- The invocation `remount ch` by an ordinary user on a system whose
`BUFSIZ` is 1024, the configuration file being a single comment line of 1024
bytes followed by a newline; every probe succeeds. -/
def longCommentWorld : World :=
  ⟨["remount".toList, "ch".toList], 1000, 1000,
    some ('#' :: List.replicate 1023 'x' ++ ['\n']), none, [],
    fun _ => true, fun _ _ => 0, 1024⟩

/-- A configuration file of comments and blank lines only. -/
def commentsOnlyConfig : List Char := "# no mountpoint\n\n#/a\r\n\r\n".toList

/-- The invocation `remount ro` by root with `commentsOnlyConfig` as
configuration file. -/
def commentsOnlyWorld : World :=
  sampleWorld ["remount", "ro"] 0 0 (some commentsOnlyConfig) (fun _ _ => 1)

/-- A configuration line the parser reads whole and cuts where the
specification says: it fits the line buffer with its NUL, holds no NUL byte,
and, unless it is skipped, its path holds no carriage return.  The length of
the path is left free. -/
def ConfigLineReadable (cap : Nat) (line : List Char) : Prop :=
  line.length < cap ∧ NUL ∉ line ∧ (specSkipped line = true ∨ '\r' ∉ specStrip line)

instance (cap : Nat) (line : List Char) : Decidable (ConfigLineReadable cap line) :=
  inferInstanceAs (Decidable (line.length < cap ∧ NUL ∉ line ∧
    (specSkipped line = true ∨ '\r' ∉ specStrip line)))

/-- The invocation `remount ch` by root whose configuration file holds
sixteen mountpoint lines followed by a line of 300 bytes; every probe
succeeds. -/
def overfullConfigWorld : World :=
  sampleWorld ["remount", "ch"] 0 0
    (some (sixteenLines ++ (List.replicate 300 'y' ++ ['\n']))) (fun _ _ => 0)

/-! ## Strings and slots -/

theorem cstr_of_not_mem {p : List Char} (h : NUL ∉ p) : cstr p = p := by
  unfold cstr
  rw [List.takeWhile_eq_self_iff]
  intro c hc
  simp only [bne_iff_ne, ne_eq]
  rintro rfl
  exact h hc

theorem cstr_length_lt {s : List Char} (h : NUL ∈ s) : (cstr s).length < s.length := by
  induction s with
  | nil => cases h
  | cons c s ih =>
    by_cases hc : c = NUL
    · subst hc
      simp [cstr]
    · have hs : NUL ∈ s := by
        rcases List.mem_cons.1 h with h1 | h1
        · exact absurd h1.symm hc
        · exact h1
      have := ih hs
      simp only [cstr, bne_iff_ne, ne_eq, hc, not_false_eq_true, decide_True,
        List.takeWhile_cons_of_pos, List.length_cons] at this ⊢
      omega

theorem strncpy_length (src : List Char) (n : Nat) : (strncpy src n).length = n := by
  simp only [strncpy, List.length_append, List.length_take, List.length_replicate]
  omega

theorem strncpy_of_isPath {p : CStr} (h : IsPath p) :
    strncpy p MOUNTPOINT_MAX_PATH
      = p ++ List.replicate (MOUNTPOINT_MAX_PATH - p.length) NUL := by
  have hlt : p.length < MOUNTPOINT_MAX_PATH := h.2
  have htake : p.take MOUNTPOINT_MAX_PATH = p := List.take_of_length_le (by omega)
  simp only [strncpy, cstr_of_not_mem h.1, htake]

theorem cstr_append_replicate {p : CStr} (h : NUL ∉ p) (k : Nat) :
    cstr (p ++ List.replicate k NUL) = p := by
  induction p with
  | nil => cases k <;> simp [cstr, List.replicate]
  | cons c p ih =>
    have hc : c ≠ NUL := fun e => h (by simp [e])
    have hp : NUL ∉ p := fun e => h (by simp [e])
    have := ih hp
    simp only [cstr, List.cons_append, bne_iff_ne, ne_eq, hc, not_false_eq_true,
      decide_True, List.takeWhile_cons_of_pos, List.cons.injEq, true_and] at this ⊢
    exact this

theorem readCStr_strncpy {p : CStr} (h : IsPath p) :
    readCStr (strncpy p MOUNTPOINT_MAX_PATH) = some p := by
  have hlt : p.length < MOUNTPOINT_MAX_PATH := h.2
  rw [strncpy_of_isPath h]
  have hmem : NUL ∈ p ++ List.replicate (MOUNTPOINT_MAX_PATH - p.length) NUL := by
    apply List.mem_append_right
    rw [List.mem_replicate]
    exact ⟨by omega, rfl⟩
  simp only [readCStr, hmem, if_true, cstr_append_replicate h.1]

/-! ## The executor loops -/

theorem max_command_size :
    MAX (MOUNTPOINT_MAX_PATH + REMOUNT_COMMAND_LENGTH)
      (MOUNTPOINT_MAX_PATH + CHECK_COMMAND_LENGTH) = 308 := by decide

theorem remount_option_length {mode : remount_mode} {option : CStr}
    (h : (if mode = READ_ONLY then some REMOUNT_COMMAND_RO
          else if mode = READ_WRITE then some REMOUNT_COMMAND_RW
          else none) = some option) : option.length = 4 := by
  cases mode <;> simp at h <;> subst h <;> decide

theorem remountLoop_eq (w : World) (mode : remount_mode) (option : CStr)
    (hopt : (if mode = READ_ONLY then some REMOUNT_COMMAND_RO
          else if mode = READ_WRITE then some REMOUNT_COMMAND_RW
          else none) = some option)
    (hcap : 308 ≤ w.BUFSIZ) :
    ∀ (slots : List (List Char)) (n : Nat),
      (∀ s ∈ slots, NUL ∈ s ∧ s.length ≤ MOUNTPOINT_MAX_PATH) →
      remountLoop w mode slots n
        = ⟨remountEvents w.system option n (slots.map cstr), Outcome.exit 0⟩ := by
  have hlen := remount_option_length hopt
  have hstart : REMOUNT_COMMAND_START.length = 17 := by decide
  have hend : REMOUNT_COMMAND_END.length = 1 := by decide
  intro slots
  induction slots with
  | nil => intro n _; rfl
  | cons s slots ih =>
    intro n h
    have hs := h s (List.mem_cons_self _ _)
    have hlt := cstr_length_lt hs.1
    have hmax : MOUNTPOINT_MAX_PATH = 256 := rfl
    have hrest := ih (n + 1) (fun t ht => h t (List.mem_cons_of_mem _ ht))
    have h1 : REMOUNT_COMMAND_START.length + 1 ≤ w.BUFSIZ := by omega
    have h2 : REMOUNT_COMMAND_START.length + option.length + 1 ≤ w.BUFSIZ := by omega
    have h3 : (REMOUNT_COMMAND_START ++ option).length + (cstr s).length + 1 ≤ w.BUFSIZ := by
      simp only [List.length_append]; omega
    have h4 : (REMOUNT_COMMAND_START ++ option ++ cstr s).length
        + REMOUNT_COMMAND_END.length + 1 ≤ w.BUFSIZ := by
      simp only [List.length_append]; omega
    simp only [remountLoop, hopt, orUndefined, strcpy, strcat, readCStr, h1, h2, h3, h4,
      hs.1, if_true, hrest, Run.after, remountEvents, List.map_cons, List.cons_append]

theorem check_command_ro (p : CStr) :
    (CHECK_COMMAND_START ++ p ++ CHECK_COMMAND_END).set CHECK_COMMAND_INDEX 'o' = roProbe p := by
  have h : CHECK_COMMAND_INDEX < CHECK_COMMAND_START.length := by decide
  have e : CHECK_COMMAND_START.set CHECK_COMMAND_INDEX 'o'
      = "awk '$4~/(^|,)ro($|,)/' /proc/mounts | grep -q \" ".toList := by decide
  rw [List.append_assoc, List.set_append, if_pos h, e]
  simp only [roProbe, CHECK_COMMAND_END, List.append_assoc]

theorem check_command_rw (p : CStr) :
    (roProbe p).set CHECK_COMMAND_INDEX 'w' = rwProbe p := by
  have h : CHECK_COMMAND_INDEX
      < "awk '$4~/(^|,)ro($|,)/' /proc/mounts | grep -q \" ".toList.length := by decide
  have e : "awk '$4~/(^|,)ro($|,)/' /proc/mounts | grep -q \" ".toList.set CHECK_COMMAND_INDEX 'w'
      = "awk '$4~/(^|,)rw($|,)/' /proc/mounts | grep -q \" ".toList := by decide
  rw [roProbe, List.append_assoc, List.set_append, if_pos h, e]
  simp only [rwProbe, List.append_assoc]

theorem checkLoop_eq (w : World) (hcap : 308 ≤ w.BUFSIZ) :
    ∀ (slots : List (List Char)) (n : Nat) (rw : Option Int),
      (∀ s ∈ slots, NUL ∈ s ∧ s.length ≤ MOUNTPOINT_MAX_PATH) →
      checkLoop w slots n rw
        = ⟨checkLoopEvents w.system n (slots.map cstr), Outcome.exit 0⟩ := by
  have hstart : CHECK_COMMAND_START.length = 49 := by decide
  have hend : CHECK_COMMAND_END.length = 2 := by decide
  intro slots
  induction slots with
  | nil => intro n rw _; rfl
  | cons s slots ih =>
    intro n rw h
    have hs := h s (List.mem_cons_self _ _)
    have hlt := cstr_length_lt hs.1
    have hmax : MOUNTPOINT_MAX_PATH = 256 := rfl
    have hrest := fun m r => ih m r (fun t ht => h t (List.mem_cons_of_mem _ ht))
    have h1 : CHECK_COMMAND_START.length + 1 ≤ w.BUFSIZ := by omega
    have h3 : CHECK_COMMAND_START.length + (cstr s).length + 1 ≤ w.BUFSIZ := by omega
    have h4 : (CHECK_COMMAND_START ++ cstr s).length
        + CHECK_COMMAND_END.length + 1 ≤ w.BUFSIZ := by
      simp only [List.length_append]; omega
    simp only [checkLoop, orUndefined, strcpy, strcat, readCStr, h1, h3, h4,
      hs.1, if_true, hrest, Run.after, checkLoopEvents, List.map_cons, check_command_ro,
      check_command_rw, checkEvents, checkCalls]
    by_cases hro : w.system n (roProbe (cstr s)) = 0
    · simp [hro]
    · by_cases hrw : w.system (n + 1) (rwProbe (cstr s)) = 0
      · simp [hro, hrw]
      · simp [hro, hrw]

theorem systemCalls_append (a b : List Event) :
    systemCalls (a ++ b) = systemCalls a ++ systemCalls b := by
  induction a with
  | nil => rfl
  | cons e a ih => cases e <;> simp [systemCalls, ih]

theorem stdoutOf_append (a b : List Event) :
    stdoutOf (a ++ b) = stdoutOf a ++ stdoutOf b := by
  induction a with
  | nil => rfl
  | cons e a ih => cases e <;> simp [stdoutOf, ih]

theorem stderrOf_append (a b : List Event) :
    stderrOf (a ++ b) = stderrOf a ++ stderrOf b := by
  induction a with
  | nil => rfl
  | cons e a ih => cases e <;> simp [stderrOf, ih]

theorem map_cstr_slots {ps : List CStr} (h : ∀ p ∈ ps, IsPath p) :
    (ps.map (fun p => strncpy p MOUNTPOINT_MAX_PATH)).map cstr = ps := by
  induction ps with
  | nil => rfl
  | cons p ps ih =>
    have hp := h p (List.mem_cons_self _ _)
    have e : cstr (strncpy p MOUNTPOINT_MAX_PATH) = p := by
      rw [strncpy_of_isPath hp, cstr_append_replicate hp.1]
    simp only [List.map_cons, e, ih (fun q hq => h q (List.mem_cons_of_mem _ hq))]

theorem slots_wellFormed {ps : List CStr} (h : ∀ p ∈ ps, IsPath p) :
    ∀ s ∈ ps.map (fun p => strncpy p MOUNTPOINT_MAX_PATH),
      NUL ∈ s ∧ s.length ≤ MOUNTPOINT_MAX_PATH := by
  intro s hs
  rcases List.mem_map.1 hs with ⟨p, hp, rfl⟩
  have hr := readCStr_strncpy (h p hp)
  refine ⟨?_, le_of_eq (strncpy_length _ _)⟩
  by_contra hn
  simp [readCStr, hn] at hr

theorem remountCommand_eq {mode : remount_mode} {option : CStr}
    (hopt : (if mode = READ_ONLY then some REMOUNT_COMMAND_RO
          else if mode = READ_WRITE then some REMOUNT_COMMAND_RW
          else none) = some option) (p : CStr) :
    REMOUNT_COMMAND_START ++ option ++ p ++ REMOUNT_COMMAND_END = specRemountCommand mode p := by
  have e1 : REMOUNT_COMMAND_START ++ REMOUNT_COMMAND_RO = "mount -o remount,ro \"".toList := by
    decide
  have e2 : REMOUNT_COMMAND_START ++ REMOUNT_COMMAND_RW = "mount -o remount,rw \"".toList := by
    decide
  cases mode <;> simp at hopt <;> subst hopt
  · simp only [specRemountCommand, if_true, e1, REMOUNT_COMMAND_END]
  · simp only [specRemountCommand, e2, REMOUNT_COMMAND_END]
    simp

theorem systemCalls_remountEvents (system : Nat → CStr → Int) (option : CStr) :
    ∀ (ps : List CStr) (n : Nat),
      systemCalls (remountEvents system option n ps)
        = ps.map (fun p => REMOUNT_COMMAND_START ++ option ++ p ++ REMOUNT_COMMAND_END) := by
  intro ps
  induction ps with
  | nil => intro n; rfl
  | cons p ps ih =>
    intro n
    simp only [remountEvents, systemCalls, List.map_cons, systemCalls_append, ih]
    split <;> simp [systemCalls]

theorem stderrOf_remountEvents (system : Nat → CStr → Int) (option : CStr) :
    ∀ (ps : List CStr) (n : Nat),
      stderrOf (remountEvents system option n ps)
        = ((ps.enumFrom n).filter (fun ip =>
              system ip.1 (REMOUNT_COMMAND_START ++ option ++ ip.2 ++ REMOUNT_COMMAND_END) != 0)).map
            (fun ip => remountWarning ip.2) := by
  intro ps
  induction ps with
  | nil => intro n; rfl
  | cons p ps ih =>
    intro n
    simp only [remountEvents, stderrOf, stderrOf_append, ih, List.enumFrom_cons]
    by_cases h : system n (REMOUNT_COMMAND_START ++ option ++ p ++ REMOUNT_COMMAND_END) = 0
    · simp only [h, ne_eq, not_true_eq_false, if_false, stderrOf, List.nil_append,
        List.filter_cons, bne_self_eq_false, Bool.false_eq_true]
    · have hb : (system n (REMOUNT_COMMAND_START ++ option ++ p ++ REMOUNT_COMMAND_END) != 0)
          = true := by simpa using h
      simp only [h, ne_eq, not_false_eq_true, if_true, stderrOf, List.singleton_append,
        List.filter_cons, hb, List.map_cons, remountWarning]

/-- C4: in ReadOnly and ReadWrite mode the backend is invoked with exactly
one remount command per resolved mountpoint, in list order, whatever the
earlier calls returned; the warnings on stderr are exactly those of the
mountpoints whose own call returned non-zero, each naming its mountpoint; and
the run ends with status 0. -/
theorem remount_one_command_per_mountpoint (w : World) (mode : remount_mode)
    (ps : List CStr) (hmode : mode = READ_ONLY ∨ mode = READ_WRITE)
    (hps : ∀ p ∈ ps, IsPath p) (hcap : 308 ≤ w.BUFSIZ) :
    systemCalls (runCommand w mode (ps.map (fun p => strncpy p MOUNTPOINT_MAX_PATH))).trace
        = ps.map (specRemountCommand mode)
      ∧ stderrOf (runCommand w mode (ps.map (fun p => strncpy p MOUNTPOINT_MAX_PATH))).trace
        = ((ps.enumFrom 0).filter
            (fun ip => w.system ip.1 (specRemountCommand mode ip.2) != 0)).map
            (fun ip => remountWarning ip.2)
      ∧ (runCommand w mode (ps.map (fun p => strncpy p MOUNTPOINT_MAX_PATH))).outcome
        = Outcome.exit 0 := by
  obtain ⟨option, hopt⟩ : ∃ option, (if mode = READ_ONLY then some REMOUNT_COMMAND_RO
          else if mode = READ_WRITE then some REMOUNT_COMMAND_RW
          else none) = some option := by
    rcases hmode with h | h <;> subst h <;> simp
  have hrun := remountLoop_eq w mode option hopt hcap _ 0 (slots_wellFormed hps)
  rw [map_cstr_slots hps] at hrun
  have hcmd : (fun p => REMOUNT_COMMAND_START ++ option ++ p ++ REMOUNT_COMMAND_END)
      = specRemountCommand mode := funext (remountCommand_eq hopt)
  have hcmd2 : (fun ip : Nat × CStr =>
        w.system ip.1 (REMOUNT_COMMAND_START ++ option ++ ip.2 ++ REMOUNT_COMMAND_END) != 0)
      = (fun ip => w.system ip.1 (specRemountCommand mode ip.2) != 0) := by
    funext ip
    rw [remountCommand_eq hopt]
  simp only [runCommand, hmode, if_true, hrun, Run.after, List.singleton_append, systemCalls,
    stderrOf, systemCalls_remountEvents, stderrOf_remountEvents, hcmd, hcmd2, and_self]

theorem systemCalls_checkEvents (system : Nat → CStr → Int) (n : Nat) (p : CStr) :
    (systemCalls (checkEvents system n p)).length = checkCalls system n p := by
  unfold checkEvents checkCalls
  split <;> simp [systemCalls]

theorem checkLoopEvents_append (system : Nat → CStr → Int) :
    ∀ (pre : List CStr) (n : Nat) (post : List CStr),
      checkLoopEvents system n (pre ++ post)
        = checkLoopEvents system n pre
          ++ checkLoopEvents system
              (n + (systemCalls (checkLoopEvents system n pre)).length) post := by
  intro pre
  induction pre with
  | nil => intro n post; simp [checkLoopEvents, systemCalls]
  | cons p pre ih =>
    intro n post
    have e : (p :: pre) ++ post = p :: (pre ++ post) := rfl
    rw [e]
    simp only [checkLoopEvents, ih, systemCalls_append, List.length_append,
      systemCalls_checkEvents, List.append_assoc, Nat.add_assoc]

theorem stdoutOf_checkLoopEvents (system : Nat → CStr → Int) :
    ∀ (ps : List CStr) (n : Nat),
      stdoutOf (checkLoopEvents system n ps) = specCheckReport system n ps := by
  intro ps
  induction ps with
  | nil => intro n; rfl
  | cons p ps ih =>
    intro n
    simp only [checkLoopEvents, stdoutOf_append, ih, specCheckReport, checkEvents, checkCalls]
    by_cases hro : system n (roProbe p) = 0
    · simp only [hro, if_true, stdoutOf, List.singleton_append]
    · by_cases hrw : system (n + 1) (rwProbe p) = 0
      · simp only [hro, hrw, if_true, if_false, stdoutOf, List.singleton_append]
      · simp only [hro, hrw, if_false, stdoutOf, List.singleton_append]

/-- C5: in Check mode, at every position of the mountpoint list, a mountpoint
whose read-only probe returns 0 gets exactly one backend call, the read-only
probe, followed by its line "<mountpoint> is ro"; when the read-only probe
returns non-zero the read-write probe is invoked right after it, once.  The
events before are those of the earlier mountpoints and the events after are
those of the check loop over the later ones. -/
theorem check_short_circuit (w : World) (pre : List CStr) (p : CStr) (post : List CStr)
    (hps : ∀ q ∈ pre ++ p :: post, IsPath q) (hcap : 308 ≤ w.BUFSIZ) :
    ∃ (events : List Event) (n : Nat) (rw : Option Int),
      (runCommand w CHECK
          ((pre ++ p :: post).map (fun q => strncpy q MOUNTPOINT_MAX_PATH))).trace
        = (runCommand w CHECK (pre.map (fun q => strncpy q MOUNTPOINT_MAX_PATH))).trace
          ++ events
          ++ (checkLoop w (post.map (fun q => strncpy q MOUNTPOINT_MAX_PATH)) n rw).trace
      ∧ (w.system
            (systemCalls
              (runCommand w CHECK (pre.map (fun q => strncpy q MOUNTPOINT_MAX_PATH))).trace).length
            (roProbe p) = 0 →
          events = [Event.system (roProbe p), Event.stdout (p ++ " is ro\n".toList)])
      ∧ (w.system
            (systemCalls
              (runCommand w CHECK (pre.map (fun q => strncpy q MOUNTPOINT_MAX_PATH))).trace).length
            (roProbe p) ≠ 0 →
          ∃ line, events = [Event.system (roProbe p), Event.system (rwProbe p),
            Event.stdout line]) := by
  have hpre : ∀ q ∈ pre, IsPath q := fun q hq => hps q (List.mem_append_left _ hq)
  have hpost : ∀ q ∈ post, IsPath q :=
    fun q hq => hps q (List.mem_append_right _ (List.mem_cons_of_mem _ hq))
  have hall := checkLoop_eq w hcap _ 0 none (slots_wellFormed hps)
  have hp := checkLoop_eq w hcap _ 0 none (slots_wellFormed hpre)
  rw [map_cstr_slots hps] at hall
  rw [map_cstr_slots hpre] at hp
  have hrun : ∀ slots, runCommand w CHECK slots = checkLoop w slots 0 none := by
    intro slots; simp [runCommand]
  refine ⟨checkEvents w.system
      (0 + (systemCalls (checkLoopEvents w.system 0 pre)).length) p,
    0 + (systemCalls (checkLoopEvents w.system 0 pre)).length
      + checkCalls w.system (0 + (systemCalls (checkLoopEvents w.system 0 pre)).length) p,
    none, ?_, ?_, ?_⟩
  · rw [hrun, hrun, hall, hp,
      checkLoop_eq w hcap _ _ none (slots_wellFormed hpost), map_cstr_slots hpost]
    simp only [checkLoopEvents_append, checkLoopEvents, List.append_assoc]
  · intro h
    rw [hrun, hp] at h
    simp only [Nat.zero_add] at h ⊢
    simp only [checkEvents, h, if_true]
  · intro h
    rw [hrun, hp] at h
    simp only [Nat.zero_add] at h ⊢
    simp only [checkEvents, h, if_false]
    exact ⟨_, rfl⟩

/-- C6: in Check mode the output is one line per mountpoint in list order,
"is ro" when its read-only probe returned 0, else "is rw" when its
read-write probe returned 0, else "is not mounted"; this holds from every
loop state, so a value of `rw` left by an earlier mountpoint has no
influence; and the run ends with status 0. -/
theorem check_report (w : World) (ps : List CStr)
    (hps : ∀ p ∈ ps, IsPath p) (hcap : 308 ≤ w.BUFSIZ) :
    stdoutOf (runCommand w CHECK (ps.map (fun p => strncpy p MOUNTPOINT_MAX_PATH))).trace
        = specCheckReport w.system 0 ps
      ∧ (runCommand w CHECK (ps.map (fun p => strncpy p MOUNTPOINT_MAX_PATH))).outcome
        = Outcome.exit 0
      ∧ ∀ (n : Nat) (rw : Option Int),
        stdoutOf (checkLoop w (ps.map (fun p => strncpy p MOUNTPOINT_MAX_PATH)) n rw).trace
          = specCheckReport w.system n ps := by
  have hrun : ∀ slots, runCommand w CHECK slots = checkLoop w slots 0 none := by
    intro slots; simp [runCommand]
  have hall := fun n rw => checkLoop_eq w hcap _ n rw (slots_wellFormed hps)
  rw [map_cstr_slots hps] at hall
  simp only [hrun, hall, stdoutOf_checkLoopEvents, true_and, implies_true]

/-! ## Shape of the runs of `main` -/

theorem parseConfiguration_error (w : World) :
    ∀ (fuel : Nat) (config : List Char) (mountpoints : List (List Char)) (r : Run),
      parseConfiguration w fuel config mountpoints = Except.error r →
      systemCalls r.trace = [] ∧
        (r.outcome = Outcome.exit 3 ∨ r.outcome = Outcome.exit 4
          ∨ r.outcome = Outcome.diverges) := by
  intro fuel
  induction fuel with
  | zero =>
    intro config mountpoints r h
    simp only [parseConfiguration, Except.error.injEq] at h
    subst h
    simp [systemCalls]
  | succ fuel ih =>
    intro config mountpoints r h
    simp only [parseConfiguration] at h
    split at h
    · split at h
      · cases h
      · split at h
        · exact ih _ _ _ h
        · split at h
          · simp only [Except.error.injEq] at h
            subst h
            simp [die, systemCalls]
          · split at h
            · simp only [Except.error.injEq] at h
              subst h
              simp [die, systemCalls]
            · exact ih _ _ _ h
    · cases h

theorem parseArguments_error (w : World) :
    ∀ (argv : List CStr) (i : Nat) (mountpoints : List (List Char)) (r : Run),
      parseArguments w i argv mountpoints = Except.error r →
      systemCalls r.trace = [] ∧ r.outcome = Outcome.exit 4 := by
  intro argv
  induction argv with
  | nil => intro i mountpoints r h; simp [parseArguments] at h
  | cons arg argv ih =>
    intro i mountpoints r h
    simp only [parseArguments] at h
    split at h
    · split at h
      · simp only [Except.error.injEq] at h
        subst h
        simp [die, systemCalls]
      · exact ih _ _ _ h
    · cases h

theorem getMountpoints_error (w : World) (args : List CStr) (r : Run)
    (h : getMountpoints w args = Except.error r) :
    systemCalls r.trace = [] ∧
      (r.outcome = Outcome.exit 3 ∨ r.outcome = Outcome.exit 4
        ∨ r.outcome = Outcome.diverges) := by
  unfold getMountpoints at h
  split at h
  · split at h
    · simp only [Except.error.injEq] at h
      subst h
      simp [die, systemCalls]
    · exact parseConfiguration_error w _ _ _ r h
  · have := parseArguments_error w _ _ _ r h
    exact ⟨this.1, Or.inr (Or.inl this.2)⟩

theorem getRemountMode_error (argv0 argv1 : CStr) (r : Run)
    (h : getRemountMode argv0 argv1 = Except.error r) :
    systemCalls r.trace = [] ∧ (r.outcome = Outcome.exit 0 ∨ r.outcome = Outcome.exit 1) := by
  unfold getRemountMode at h
  split at h
  · cases h
  · split at h
    · cases h
    · split at h
      · cases h
      · split at h
        · simp only [Except.error.injEq] at h
          subst h
          exact ⟨rfl, Or.inl rfl⟩
        · simp only [Except.error.injEq] at h
          subst h
          simp [die, systemCalls]

theorem checkPermissions_some (w : World) (mode : remount_mode) (r : Run)
    (h : checkPermissions w mode = some r) :
    systemCalls r.trace = [] ∧ r.outcome = Outcome.exit 2 := by
  unfold checkPermissions at h
  split at h
  · simp only [Option.some.injEq] at h
    subst h
    simp [die, systemCalls]
  · split at h
    · simp only [Option.some.injEq] at h
      subst h
      simp [die, systemCalls]
    · cases h

theorem remountLoop_outcome (w : World) (mode : remount_mode)
    (hmode : mode = READ_ONLY ∨ mode = READ_WRITE) :
    ∀ (slots : List (List Char)) (n : Nat),
      (remountLoop w mode slots n).outcome = Outcome.exit 0
        ∨ (remountLoop w mode slots n).outcome = Outcome.undefined := by
  obtain ⟨option, hopt⟩ : ∃ option, (if mode = READ_ONLY then some REMOUNT_COMMAND_RO
          else if mode = READ_WRITE then some REMOUNT_COMMAND_RW
          else none) = some option := by
    rcases hmode with h | h <;> subst h <;> simp
  intro slots
  induction slots with
  | nil => intro n; left; rfl
  | cons s slots ih =>
    intro n
    simp only [remountLoop, hopt]
    cases strcpy w.BUFSIZ REMOUNT_COMMAND_START with
    | none => right; rfl
    | some b1 =>
      simp only [orUndefined]
      cases strcat w.BUFSIZ b1 option with
      | none => right; rfl
      | some b2 =>
        simp only []
        cases readCStr s with
        | none => right; rfl
        | some path =>
          simp only []
          cases strcat w.BUFSIZ b2 path with
          | none => right; rfl
          | some b3 =>
            simp only []
            cases strcat w.BUFSIZ b3 REMOUNT_COMMAND_END with
            | none => right; rfl
            | some b4 =>
              simp only [Run.after]
              exact ih (n + 1)

theorem checkLoop_outcome (w : World) :
    ∀ (slots : List (List Char)) (n : Nat) (rw : Option Int),
      (checkLoop w slots n rw).outcome = Outcome.exit 0
        ∨ (checkLoop w slots n rw).outcome = Outcome.undefined := by
  intro slots
  induction slots with
  | nil => intro n rw; left; rfl
  | cons s slots ih =>
    intro n rw
    simp only [checkLoop]
    cases strcpy w.BUFSIZ CHECK_COMMAND_START with
    | none => right; rfl
    | some b1 =>
      simp only [orUndefined]
      cases readCStr s with
      | none => right; rfl
      | some path =>
        simp only []
        cases strcat w.BUFSIZ b1 path with
        | none => right; rfl
        | some b3 =>
          simp only []
          cases strcat w.BUFSIZ b3 CHECK_COMMAND_END with
          | none => right; rfl
          | some b4 =>
            simp only []
            split
            · simp only [Run.after]; exact ih _ _
            · split
              · right; rfl
              · split <;> (simp only [Run.after]; exact ih _ _)

theorem runCommand_outcome (w : World) (mode : remount_mode) (slots : List (List Char)) :
    (runCommand w mode slots).outcome = Outcome.exit 0
      ∨ (runCommand w mode slots).outcome = Outcome.undefined := by
  cases mode
  · simpa [runCommand, Run.after] using remountLoop_outcome w READ_ONLY (Or.inl rfl) slots 0
  · simpa [runCommand, Run.after] using remountLoop_outcome w READ_WRITE (Or.inr rfl) slots 0
  · simpa [runCommand, Run.after] using checkLoop_outcome w slots 0 none

theorem checkOverflowAndRun_shape (w : World) (mode : remount_mode)
    (slots : List (List Char)) :
    ((checkOverflowAndRun w mode slots).outcome = Outcome.exit 0
      ∨ (checkOverflowAndRun w mode slots).outcome = Outcome.undefined)
    ∨ (systemCalls (checkOverflowAndRun w mode slots).trace = [] ∧
        ((checkOverflowAndRun w mode slots).outcome = Outcome.exit 4
          ∨ (checkOverflowAndRun w mode slots).outcome = Outcome.exit 5)) := by
  unfold checkOverflowAndRun
  split
  · right; exact ⟨rfl, Or.inr rfl⟩
  · split
    · right; exact ⟨rfl, Or.inl rfl⟩
    · left; exact runCommand_outcome w mode slots

/-- What `main` does once the permission check has passed. -/
theorem afterPermissions_shape (w : World) (mode : remount_mode) (args : List CStr) (r : Run)
    (h : r = match getMountpoints w args with
      | Except.error r => r
      | Except.ok mountpoints => checkOverflowAndRun w mode mountpoints) :
    (r.outcome = Outcome.exit 0 ∨ r.outcome = Outcome.undefined
      ∨ r.outcome = Outcome.diverges)
    ∨ (systemCalls r.trace = [] ∧
        (r.outcome = Outcome.exit 3 ∨ r.outcome = Outcome.exit 4
          ∨ r.outcome = Outcome.exit 5)) := by
  subst h
  cases hres : getMountpoints w args with
  | error r =>
    simp only []
    have := getMountpoints_error w args r hres
    rcases this with ⟨h1, h2 | h2 | h2⟩
    · right; exact ⟨h1, Or.inl h2⟩
    · right; exact ⟨h1, Or.inr (Or.inl h2)⟩
    · left; exact Or.inr (Or.inr h2)
  | ok slots =>
    simp only []
    rcases checkOverflowAndRun_shape w mode slots with (h | h) | ⟨h1, h2 | h2⟩
    · left; exact Or.inl h
    · left; exact Or.inr (Or.inl h)
    · right; exact ⟨h1, Or.inr (Or.inl h2)⟩
    · right; exact ⟨h1, Or.inr (Or.inr h2)⟩

/-- C7: with an accepted mode, the program ends with the permission error
(exit status 2) exactly when the mode is ReadOnly or ReadWrite and the
effective uid is not 0, or the mode is ReadWrite and the real uid is not 0.
The condition mentions neither the mountpoint arguments nor the
configuration files, and is never met in Check mode. -/
theorem permission_error_iff (w : World) (argv0 argv1 : CStr) (args : List CStr)
    (mode : remount_mode) (hargv : w.argv = argv0 :: argv1 :: args)
    (hmode : getRemountMode argv0 argv1 = Except.ok mode) :
    (main w).outcome = Outcome.exit 2 ↔
      ((mode = READ_ONLY ∨ mode = READ_WRITE) ∧ w.euid ≠ 0)
        ∨ (mode = READ_WRITE ∧ w.uid ≠ 0) := by
  have hmain : main w = match checkPermissions w mode with
      | some r => r
      | none =>
        match getMountpoints w args with
        | Except.error r => r
        | Except.ok mountpoints => checkOverflowAndRun w mode mountpoints := by
    simp only [main, hargv, hmode]
  rw [hmain]
  constructor
  · intro h
    by_contra hc
    have hnone : checkPermissions w mode = none := by
      unfold checkPermissions
      rw [if_neg, if_neg]
      · intro h2; exact hc (Or.inr h2)
      · intro h1
        apply hc
        left
        refine ⟨?_, h1.2⟩
        cases mode
        · left; rfl
        · right; rfl
        · exact absurd rfl h1.1
    rw [hnone] at h
    simp only [] at h
    rcases afterPermissions_shape w mode args _ rfl with (h1 | h1 | h1) | ⟨_, h1 | h1 | h1⟩ <;>
      rw [h1] at h <;> cases h
  · intro h
    have hsome : ∃ r, checkPermissions w mode = some r := by
      unfold checkPermissions
      rcases h with ⟨hm, he⟩ | ⟨hm, hu⟩
      · have : mode ≠ CHECK ∧ w.euid ≠ 0 := by
          refine ⟨?_, he⟩
          rcases hm with hm | hm <;> subst hm <;> decide
        rw [if_pos this]
        exact ⟨_, rfl⟩
      · split
        · exact ⟨_, rfl⟩
        · rw [if_pos ⟨hm, hu⟩]
          exact ⟨_, rfl⟩
    obtain ⟨r, hr⟩ := hsome
    rw [hr]
    exact (checkPermissions_some w mode r hr).2

/-- C8: a run of the program that ends with a non-zero exit status has made
no backend invocation: every fatal error is raised before the first
`system` call. -/
theorem fatal_exit_makes_no_backend_call (w : World) (status : Nat)
    (hexit : (main w).outcome = Outcome.exit status) (hstatus : status ≠ 0) :
    systemCalls (main w).trace = [] := by
  unfold main at hexit ⊢
  split at hexit
  · rfl
  · rfl
  · rename_i argv0 argv1 args hargv
    split at hexit
    · rename_i r hr
      exact (getRemountMode_error argv0 argv1 r hr).1
    · rename_i mode hmode
      split at hexit
      · rename_i r hr
        exact (checkPermissions_some w mode r hr).1
      · rcases afterPermissions_shape w mode args _ rfl with (h1 | h1 | h1) | ⟨h2, _⟩
        · rw [h1] at hexit
          cases hexit
          exact absurd rfl hstatus
        · rw [h1] at hexit; cases hexit
        · rw [h1] at hexit; cases hexit
        · exact h2

theorem strncpy_mem_nul {src : List Char} {n : Nat} (h : (cstr src).length < n) :
    NUL ∈ strncpy src n := by
  unfold strncpy
  apply List.mem_append_right
  rw [List.mem_replicate]
  refine ⟨?_, rfl⟩
  simp only [List.length_take]
  omega

theorem cstr_set_length (l : List Char) : ∀ i : Nat, (cstr (l.set i NUL)).length ≤ i := by
  induction l with
  | nil => intro i; simp [cstr]
  | cons c l ih =>
    intro i
    cases i with
    | zero => simp [cstr]
    | succ j =>
      have := ih j
      by_cases hc : c = NUL
      · subst hc; simp [cstr]
      · simp only [cstr, List.set_cons_succ, bne_iff_ne, ne_eq, hc, not_false_eq_true,
          decide_True, List.takeWhile_cons_of_pos, List.length_cons] at this ⊢
        omega

theorem terminated_append {slots : List (List Char)} {s : List Char}
    (h : Terminated slots) (hs : NUL ∈ s ∧ s.length ≤ MOUNTPOINT_MAX_PATH) :
    Terminated (slots ++ [s]) := by
  intro t ht
  rcases List.mem_append.1 ht with h1 | h1
  · exact h t h1
  · rw [List.mem_singleton] at h1
    subst h1
    exact hs

theorem parseConfiguration_terminated (w : World) :
    ∀ (fuel : Nat) (config : List Char) (mountpoints slots : List (List Char)),
      Terminated mountpoints →
      parseConfiguration w fuel config mountpoints = Except.ok slots →
      Terminated slots := by
  intro fuel
  induction fuel with
  | zero => intro config mountpoints slots _ h; simp [parseConfiguration] at h
  | succ fuel ih =>
    intro config mountpoints slots hm h
    simp only [parseConfiguration] at h
    split at h
    · split at h
      · simp only [Except.ok.injEq] at h
        subst h
        exact hm
      · split at h
        · exact ih _ _ _ hm h
        · split at h
          · cases h
          · split at h
            · cases h
            · rename_i buffer rest _ _ _ hlen
              refine ih _ _ _ (terminated_append hm ⟨?_, le_of_eq (strncpy_length _ _)⟩) h
              apply strncpy_mem_nul
              have := cstr_set_length buffer (strcspn buffer "\r\n".toList)
              omega
    · simp only [Except.ok.injEq] at h
      subst h
      exact hm

theorem parseArguments_terminated (w : World) :
    ∀ (argv : List CStr) (i : Nat) (mountpoints slots : List (List Char)),
      Terminated mountpoints →
      (∀ a ∈ argv.take (MOUNTPOINT_MAX_COUNT - i), (cstr a).length < MOUNTPOINT_MAX_PATH) →
      parseArguments w i argv mountpoints = Except.ok slots →
      Terminated slots := by
  intro argv
  induction argv with
  | nil =>
    intro i mountpoints slots hm _ h
    simp only [parseArguments, Except.ok.injEq] at h
    subst h
    exact hm
  | cons arg argv ih =>
    intro i mountpoints slots hm ha h
    simp only [parseArguments] at h
    split at h
    · rename_i hi
      split at h
      · cases h
      · obtain ⟨j, hj⟩ : ∃ j, MOUNTPOINT_MAX_COUNT - i = j + 1 := ⟨MOUNTPOINT_MAX_COUNT - i - 1, by omega⟩
        rw [hj, List.take_succ_cons] at ha
        have hj2 : MOUNTPOINT_MAX_COUNT - (i + 1) = j := by omega
        refine ih _ _ _ (terminated_append hm ⟨?_, le_of_eq (strncpy_length _ _)⟩) ?_ h
        · exact strncpy_mem_nul (ha arg (List.mem_cons_self _ _))
        · rw [hj2]
          exact fun a h' => ha a (List.mem_cons_of_mem _ h')
    · simp only [Except.ok.injEq] at h
      subst h
      exact hm

theorem getMountpoints_terminated (w : World) (args : List CStr) (slots : List (List Char))
    (hargs : ∀ a ∈ args.take 14, (cstr a).length < MOUNTPOINT_MAX_PATH)
    (h : getMountpoints w args = Except.ok slots) : Terminated slots := by
  have hnil : Terminated [] := fun s hs => by cases hs
  unfold getMountpoints at h
  split at h
  · split at h
    · cases h
    · exact parseConfiguration_terminated w _ _ _ _ hnil h
  · exact parseArguments_terminated w _ 2 _ _ hnil hargs h

theorem parseConfiguration_withSystem (w : World) (system : Nat → CStr → Int) :
    ∀ (fuel : Nat) (config : List Char) (mountpoints : List (List Char)),
      parseConfiguration (w.withSystem system) fuel config mountpoints
        = parseConfiguration w fuel config mountpoints := by
  intro fuel
  induction fuel with
  | zero => intro config mountpoints; rfl
  | succ fuel ih =>
    intro config mountpoints
    simp only [parseConfiguration, ih]
    rfl

theorem parseArguments_withSystem (w : World) (system : Nat → CStr → Int) :
    ∀ (argv : List CStr) (i : Nat) (mountpoints : List (List Char)),
      parseArguments (w.withSystem system) i argv mountpoints
        = parseArguments w i argv mountpoints := by
  intro argv
  induction argv with
  | nil => intro i mountpoints; rfl
  | cons arg argv ih =>
    intro i mountpoints
    simp only [parseArguments, ih]
    rfl

theorem getMountpoints_withSystem (w : World) (system : Nat → CStr → Int) (args : List CStr) :
    getMountpoints (w.withSystem system) args = getMountpoints w args := by
  unfold getMountpoints
  cases args with
  | nil =>
    simp only [parseConfiguration_withSystem]
    rfl
  | cons a args => simp only [parseArguments_withSystem]

theorem runCommand_terminated (w : World) (mode : remount_mode) (slots : List (List Char))
    (hcap : 308 ≤ w.BUFSIZ) (hslots : Terminated slots) :
    (runCommand w mode slots).outcome = Outcome.exit 0 := by
  cases mode
  · simp [runCommand, Run.after,
      remountLoop_eq w READ_ONLY REMOUNT_COMMAND_RO (by simp) hcap slots 0 hslots]
  · simp [runCommand, Run.after,
      remountLoop_eq w READ_WRITE REMOUNT_COMMAND_RW (by simp) hcap slots 0 hslots]
  · simp [runCommand, checkLoop_eq w hcap slots 0 none hslots]

/-- C9: a run that reaches the per-mountpoint loop (mode accepted, privilege
granted, list resolved into NUL-terminated slots, count and size checks
passed) ends with exit status 0 under every backend behaviour: it is the run
of the executor on the resolved list, whose status no `system` result
changes. -/
theorem backend_results_keep_exit_status (w : World) (system : Nat → CStr → Int)
    (argv0 argv1 : CStr) (args : List CStr) (mode : remount_mode)
    (slots : List (List Char))
    (hargv : w.argv = argv0 :: argv1 :: args)
    (hmode : getRemountMode argv0 argv1 = Except.ok mode)
    (hperm : checkPermissions w mode = none)
    (hres : getMountpoints w args = Except.ok slots)
    (hargs : ∀ a ∈ args.take 14, (cstr a).length < MOUNTPOINT_MAX_PATH)
    (hcount : slots.length < MOUNTPOINT_MAX_COUNT)
    (hsize : ¬ w.BUFSIZ < MAX (MOUNTPOINT_MAX_PATH + REMOUNT_COMMAND_LENGTH)
      (MOUNTPOINT_MAX_PATH + CHECK_COMMAND_LENGTH)) :
    main (w.withSystem system) = runCommand (w.withSystem system) mode slots
      ∧ (main (w.withSystem system)).outcome = Outcome.exit 0 := by
  have hperm2 : checkPermissions (w.withSystem system) mode = none := hperm
  have hargv2 : (w.withSystem system).argv = argv0 :: argv1 :: args := hargv
  have hsize2 : ¬ (w.withSystem system).BUFSIZ
      < MAX (MOUNTPOINT_MAX_PATH + REMOUNT_COMMAND_LENGTH)
        (MOUNTPOINT_MAX_PATH + CHECK_COMMAND_LENGTH) := hsize
  have hcap : 308 ≤ (w.withSystem system).BUFSIZ := by
    rw [max_command_size] at hsize2
    omega
  have hmain : main (w.withSystem system) = runCommand (w.withSystem system) mode slots := by
    simp only [main, hargv2, hmode, hperm2, getMountpoints_withSystem, hres,
      checkOverflowAndRun, ge_iff_le, Nat.not_le.2 hcount, if_false, hsize2]
  refine ⟨hmain, ?_⟩
  rw [hmain]
  exact runCommand_terminated _ mode slots hcap (getMountpoints_terminated w args slots hargs hres)

/-! ## Configuration lines -/

theorem splitLines_eq_nil {s : List Char} (h : splitLines s = []) : s = [] := by
  cases s with
  | nil => rfl
  | cons c cs =>
    simp only [splitLines] at h
    split at h
    · cases h
    · split at h <;> cases h

theorem fgetsRead_nil (m : Nat) : fgetsRead m [] = ([], []) := by
  cases m <;> rfl

/-- Shape of the first line of a text, and what one `fgets` call with room for
it reads. -/
theorem splitLines_cons :
    ∀ (s l : List Char) (ls : List (List Char)), splitLines s = l :: ls →
      ∃ rest, s = l ++ rest ∧ splitLines rest = ls ∧ l ≠ []
        ∧ (∀ m, l.length ≤ m → fgetsRead m s = (l, rest))
        ∧ ((∃ body, l = body ++ ['\n'] ∧ '\n' ∉ body) ∨ '\n' ∉ l) := by
  intro s
  induction s with
  | nil => intro l ls h; cases h
  | cons c cs ih =>
    intro l ls h
    simp only [splitLines] at h
    by_cases hc : c = '\n'
    · rw [if_pos hc] at h
      simp only [List.cons.injEq] at h
      obtain ⟨rfl, rfl⟩ := h
      refine ⟨cs, rfl, rfl, by simp, ?_, Or.inl ⟨[], by simp [hc], by simp⟩⟩
      intro m hm
      obtain ⟨k, rfl⟩ : ∃ k, m = k + 1 := ⟨m - 1, by simp at hm; omega⟩
      simp [fgetsRead, hc]
    · rw [if_neg hc] at h
      cases hsplit : splitLines cs with
      | nil =>
        rw [hsplit] at h
        simp only [List.cons.injEq] at h
        obtain ⟨rfl, rfl⟩ := h
        have hcs := splitLines_eq_nil hsplit
        subst hcs
        refine ⟨[], rfl, rfl, by simp, ?_, Or.inr (by simpa using Ne.symm hc)⟩
        intro m hm
        obtain ⟨k, rfl⟩ : ∃ k, m = k + 1 := ⟨m - 1, by simp at hm; omega⟩
        simp [fgetsRead, hc, fgetsRead_nil]
      | cons l0 ls0 =>
        rw [hsplit] at h
        simp only [List.cons.injEq] at h
        obtain ⟨rfl, rfl⟩ := h
        obtain ⟨rest, hs, hrest, _, hread, hshape⟩ := ih l0 ls0 hsplit
        refine ⟨rest, by simp [hs], hrest, by simp, ?_, ?_⟩
        · intro m hm
          obtain ⟨k, rfl⟩ : ∃ k, m = k + 1 := ⟨m - 1, by simp at hm; omega⟩
          have hk : l0.length ≤ k := by simp at hm; omega
          simp [fgetsRead, hc, hread k hk]
        · rcases hshape with ⟨body, hb, hnb⟩ | hn
          · left
            refine ⟨c :: body, by simp [hb], ?_⟩
            simp only [List.mem_cons, not_or]
            exact ⟨Ne.symm hc, hnb⟩
          · right
            simp only [List.mem_cons, not_or]
            exact ⟨Ne.symm hc, hn⟩

theorem take_length_takeWhile (q : Char → Bool) (l : List Char) :
    l.take (l.takeWhile q).length = l.takeWhile q := by
  induction l with
  | nil => rfl
  | cons c l ih =>
    by_cases h : q c = true
    · simp [List.takeWhile_cons, h, ih]
    · simp [List.takeWhile_cons, h]

theorem cstr_set_of_not_mem {l : List Char} (h : NUL ∉ l) :
    ∀ i : Nat, cstr (l.set i NUL) = l.take i := by
  induction l with
  | nil => intro i; simp [cstr]
  | cons c l ih =>
    intro i
    have hc : c ≠ NUL := fun e => h (by simp [e])
    have hl : NUL ∉ l := fun e => h (by simp [e])
    cases i with
    | zero => simp [cstr]
    | succ j =>
      have := ih hl j
      simp only [cstr, List.set_cons_succ, bne_iff_ne, ne_eq, hc, not_false_eq_true,
        decide_True, List.takeWhile_cons_of_pos, List.take_succ_cons, List.cons.injEq,
        true_and] at this ⊢
      exact this

theorem strcspn_of_not_mem {l : List Char} (h : NUL ∉ l) :
    strcspn l "\r\n".toList = (pathBytes l).length := by
  simp only [strcspn, cstr_of_not_mem h, pathBytes]

theorem pathBytes_subset (l : List Char) : ∀ c ∈ pathBytes l, c ∈ l :=
  fun _ hc => (List.takeWhile_sublist _).subset hc

theorem strncpy_line {l : List Char} (h : NUL ∉ l) (n : Nat) :
    strncpy (l.set (strcspn l "\r\n".toList) NUL) n = strncpy (pathBytes l) n := by
  have hp : NUL ∉ pathBytes l := fun hc => h (pathBytes_subset l _ hc)
  have e : cstr (l.set (strcspn l "\r\n".toList) NUL) = pathBytes l := by
    rw [cstr_set_of_not_mem h, strcspn_of_not_mem h]
    exact take_length_takeWhile _ _
  simp only [strncpy, e, cstr_of_not_mem hp]

theorem specStrip_append (l : List Char) :
    ∃ t, l = specStrip l ++ t ∧
      ((t = [] ∧ ¬ "\n".toList <:+ l) ∨ t = ['\n'] ∨ t = ['\r', '\n']) := by
  unfold specStrip
  split
  · rename_i h
    obtain ⟨a, rfl⟩ := h
    refine ⟨['\r', '\n'], ?_, Or.inr (Or.inr rfl)⟩
    have : "\r\n".toList = ['\r', '\n'] := rfl
    simp [this]
  · split
    · rename_i h
      obtain ⟨a, rfl⟩ := h
      refine ⟨['\n'], ?_, Or.inr (Or.inl rfl)⟩
      have : "\n".toList = ['\n'] := rfl
      simp [this]
    · rename_i h
      exact ⟨[], by simp, Or.inl ⟨rfl, h⟩⟩

theorem takeWhile_append_stop (q : Char → Bool) (a t : List Char)
    (ha : ∀ c ∈ a, q c = true) (ht : t = [] ∨ ∃ c t', t = c :: t' ∧ q c = false) :
    (a ++ t).takeWhile q = a := by
  induction a with
  | nil =>
    rcases ht with rfl | ⟨c, t', rfl, hc⟩
    · rfl
    · simp [List.takeWhile_cons, hc]
  | cons x a ih =>
    have hx := ha x (List.mem_cons_self _ _)
    simp [List.takeWhile_cons, hx, ih (fun c hc => ha c (List.mem_cons_of_mem _ hc))]

/-- On a line of a text whose stripped form holds no carriage return, the
bytes before the first line terminator are the line with its terminator
stripped. -/
theorem pathBytes_eq_specStrip {l : List Char}
    (hshape : (∃ body, l = body ++ ['\n'] ∧ '\n' ∉ body) ∨ '\n' ∉ l)
    (hcr : '\r' ∉ specStrip l) : pathBytes l = specStrip l := by
  obtain ⟨t, hl, ht⟩ := specStrip_append l
  have hnl : '\n' ∉ specStrip l := by
    rcases hshape with ⟨body, hb, hnb⟩ | hn
    · subst hb
      rcases ht with ⟨_, hns⟩ | rfl | rfl
      · exact absurd ⟨body, rfl⟩ hns
      · have := List.append_inj_left' hl rfl
        rw [← this]
        exact hnb
      · have e : specStrip (body ++ ['\n']) ++ ['\r', '\n']
            = (specStrip (body ++ ['\n']) ++ ['\r']) ++ ['\n'] := by simp
        rw [e] at hl
        have := List.append_inj_left' hl rfl
        intro hc
        exact hnb (this ▸ List.mem_append_left _ hc)
    · intro hc
      apply hn
      rw [hl]
      exact List.mem_append_left _ hc
  have hq : ∀ c ∈ specStrip l, (!("\r\n".toList.contains c)) = true := by
    intro c hc
    have h1 : c ≠ '\r' := fun e => hcr (e ▸ hc)
    have h2 : c ≠ '\n' := fun e => hnl (e ▸ hc)
    have : "\r\n".toList = ['\r', '\n'] := rfl
    simp [this, h1, h2]
  have hstop : t = [] ∨ ∃ c t', t = c :: t' ∧ (!("\r\n".toList.contains c)) = false := by
    rcases ht with ⟨rfl, _⟩ | rfl | rfl
    · left; rfl
    · right; exact ⟨'\n', [], rfl, by decide⟩
    · right; exact ⟨'\r', ['\n'], rfl, by decide⟩
  unfold pathBytes
  conv_lhs => rw [hl]
  exact takeWhile_append_stop _ _ _ hq hstop

theorem fgets_line {cap : Nat} {s l rest : List Char} (hl : l ≠ []) (hs : s = l ++ rest)
    (hfit : l.length < cap) (hread : ∀ m, l.length ≤ m → fgetsRead m s = (l, rest)) :
    fgets cap s = some (l, rest) := by
  have hpos : 0 < l.length := List.length_pos.2 hl
  have hne : s ≠ [] := by
    rw [hs]
    intro h
    exact hl (List.append_eq_nil.1 h).1
  have h0 : ¬ cap = 0 := by omega
  have h1 : ¬ cap = 1 := by omega
  simp only [fgets, h0, h1, hne, if_false, hread (cap - 1) (by omega)]

theorem skip_condition {l : List Char} (hl : l ≠ []) (hnul : NUL ∉ l) :
    (l.getD 0 NUL = NUL ∨ l.getD 0 NUL = '\n' ∨ l.getD 0 NUL = '\r' ∨ l.getD 0 NUL = '#')
      ↔ specSkipped l = true := by
  cases l with
  | nil => exact absurd rfl hl
  | cons c l =>
    have hc : c ≠ NUL := fun e => hnul (by simp [e])
    simp only [List.getD_cons_zero, hc, false_or, specSkipped, Bool.or_eq_true, beq_iff_eq]
    tauto

theorem parseConfiguration_lines (w : World) (hcap : 2 ≤ w.BUFSIZ)
    (hmalloc : ∀ k, k < MOUNTPOINT_MAX_COUNT → w.malloc k = true) :
    ∀ (ls : List (List Char)) (config : List Char) (fuel : Nat)
      (mountpoints : List (List Char)),
      splitLines config = ls → config.length < fuel →
      (∀ l ∈ ls, ConfigLineOk w.BUFSIZ l) →
      parseConfiguration w fuel config mountpoints
        = Except.ok (mountpoints
            ++ (lineSlots ls).take (MOUNTPOINT_MAX_COUNT - mountpoints.length)) := by
  intro ls
  induction ls with
  | nil =>
    intro config fuel mountpoints hsplit hfuel _
    have hc := splitLines_eq_nil hsplit
    subst hc
    obtain ⟨f, rfl⟩ : ∃ f, fuel = f + 1 := ⟨fuel - 1, by omega⟩
    have h0 : ¬ w.BUFSIZ = 0 := by omega
    have h1 : ¬ w.BUFSIZ = 1 := by omega
    simp [parseConfiguration, fgets, h0, h1, lineSlots]
  | cons l ls ih =>
    intro config fuel mountpoints hsplit hfuel hok
    obtain ⟨rest, hs, hrest, hne, hread, hshape⟩ := splitLines_cons config l ls hsplit
    obtain ⟨hfit, hnul, hpath⟩ := hok l (List.mem_cons_self _ _)
    have hoks : ∀ l' ∈ ls, ConfigLineOk w.BUFSIZ l' :=
      fun l' h' => hok l' (List.mem_cons_of_mem _ h')
    obtain ⟨f, rfl⟩ : ∃ f, fuel = f + 1 := ⟨fuel - 1, by omega⟩
    have hpos : 0 < l.length := List.length_pos.2 hne
    have hf : rest.length < f := by
      rw [hs, List.length_append] at hfuel
      omega
    by_cases hk : mountpoints.length < MOUNTPOINT_MAX_COUNT
    · simp only [parseConfiguration, hk, if_true, fgets_line hne hs hfit hread]
      by_cases hskip : specSkipped l = true
      · rw [if_pos ((skip_condition hne hnul).2 hskip), ih rest f mountpoints hrest hf hoks]
        simp [lineSlots, List.filter_cons, hskip]
      · rw [if_neg (fun h => hskip ((skip_condition hne hnul).1 h))]
        have hp := hpath.resolve_left hskip
        have hbytes : pathBytes l = specStrip l := pathBytes_eq_specStrip hshape hp.1
        have hlen : ¬ strcspn l "\r\n".toList ≥ MOUNTPOINT_MAX_PATH := by
          rw [strcspn_of_not_mem hnul, hbytes]
          omega
        have hm : ¬ w.malloc mountpoints.length = false := by
          rw [hmalloc _ hk]
          simp
        rw [if_neg hm, if_neg hlen, strncpy_line hnul, hbytes,
          ih rest f _ hrest hf hoks]
        have hslots : lineSlots (l :: ls)
            = strncpy (specStrip l) MOUNTPOINT_MAX_PATH :: lineSlots ls := by
          simp [lineSlots, List.filter_cons, hskip]
        obtain ⟨j, hj⟩ : ∃ j, MOUNTPOINT_MAX_COUNT - mountpoints.length = j + 1 :=
          ⟨MOUNTPOINT_MAX_COUNT - mountpoints.length - 1, by omega⟩
        have hj2 : MOUNTPOINT_MAX_COUNT
            - (mountpoints ++ [strncpy (specStrip l) MOUNTPOINT_MAX_PATH]).length = j := by
          simp only [List.length_append, List.length_singleton]
          omega
        rw [hslots, hj, hj2, List.take_succ_cons]
        simp
    · have h0 : MOUNTPOINT_MAX_COUNT - mountpoints.length = 0 := by omega
      simp [parseConfiguration, hk, h0]

theorem configLine_isPath {cap : Nat} {l : List Char} (hok : ConfigLineOk cap l)
    (hskip : specSkipped l = false) : IsPath (specStrip l) := by
  obtain ⟨_, hnul, hpath⟩ := hok
  have hp := hpath.resolve_left (by simp [hskip])
  refine ⟨?_, hp.2⟩
  obtain ⟨t, hl, _⟩ := specStrip_append l
  intro hc
  apply hnul
  rw [hl]
  exact List.mem_append_left _ hc

theorem specConfigPaths_isPath {cap : Nat} {content : List Char}
    (hok : ∀ l ∈ splitLines content, ConfigLineOk cap l) :
    ∀ p ∈ specConfigPaths content, IsPath p := by
  intro p hp
  simp only [specConfigPaths, List.mem_map, List.mem_filter] at hp
  obtain ⟨l, ⟨hl, hskip⟩, rfl⟩ := hp
  exact configLine_isPath (hok l hl) (by simpa using hskip)

theorem getMountpoints_config (w : World) (content : List Char)
    (hopen : w.config.orElse (fun _ => w.defconfig) = some content)
    (hcap : 2 ≤ w.BUFSIZ)
    (hmalloc : ∀ k, k < MOUNTPOINT_MAX_COUNT → w.malloc k = true)
    (hlines : ∀ l ∈ splitLines content, ConfigLineOk w.BUFSIZ l) :
    getMountpoints w []
      = Except.ok (((specConfigPaths content).take MOUNTPOINT_MAX_COUNT).map
          (fun p => strncpy p MOUNTPOINT_MAX_PATH)) := by
  simp only [getMountpoints, hopen]
  rw [parseConfiguration_lines w hcap hmalloc (splitLines content) content _ [] rfl
    (Nat.lt_succ_self _) hlines]
  simp [lineSlots, specConfigPaths, List.map_take]

/-! ## Resolution of the mountpoint list -/

theorem parseArguments_all (w : World)
    (hmalloc : ∀ k, k < MOUNTPOINT_MAX_COUNT → w.malloc k = true) :
    ∀ (argv : List CStr) (i : Nat) (mountpoints : List (List Char)),
      i + argv.length ≤ MOUNTPOINT_MAX_COUNT →
      mountpoints.length + argv.length ≤ MOUNTPOINT_MAX_COUNT →
      parseArguments w i argv mountpoints
        = Except.ok (mountpoints ++ argv.map (fun p => strncpy p MOUNTPOINT_MAX_PATH)) := by
  intro argv
  induction argv with
  | nil => intro i mountpoints _ _; simp [parseArguments]
  | cons arg argv ih =>
    intro i mountpoints hi hk
    simp only [List.length_cons] at hi hk
    have h1 : i < MOUNTPOINT_MAX_COUNT := by omega
    have h2 : ¬ w.malloc mountpoints.length = false := by
      rw [hmalloc _ (by omega)]
      simp
    simp only [parseArguments, h1, if_true, h2, if_false]
    rw [ih (i + 1) _ (by omega) (by simp only [List.length_append, List.length_singleton]; omega)]
    simp

/-- C1 (amended): for an invocation that passes mode parsing and the
privilege check, with allocations that succeed, a mountpoint source of at
most 14 arguments, or of at most 15 mountpoint lines of a configuration file
read as the specification describes, each entry a path shorter than
`MOUNTPOINT_MAX_PATH`, resolves to exactly those entries in the same order;
the run goes on to the overflow check with that list, does not end with the
too-many-mountpoints status 5, and with a sufficient `BUFSIZ` is the run of
the executor over that list. -/
theorem resolved_list_is_source (w : World) (argv0 argv1 : CStr) (args : List CStr)
    (mode : remount_mode) (entries : List CStr)
    (hargv : w.argv = argv0 :: argv1 :: args)
    (hmode : getRemountMode argv0 argv1 = Except.ok mode)
    (hperm : checkPermissions w mode = none)
    (hsource : MountpointSource w args entries)
    (hcount : entries.length ≤ (if args = [] then 15 else 14))
    (hpaths : ∀ e ∈ entries, IsPath e)
    (hbuf : 2 ≤ w.BUFSIZ)
    (hmalloc : ∀ k, k < MOUNTPOINT_MAX_COUNT → w.malloc k = true) :
    getMountpoints w args
        = Except.ok (entries.map (fun p => strncpy p MOUNTPOINT_MAX_PATH))
      ∧ (∀ e ∈ entries, readCStr (strncpy e MOUNTPOINT_MAX_PATH) = some e)
      ∧ main w
        = checkOverflowAndRun w mode (entries.map (fun p => strncpy p MOUNTPOINT_MAX_PATH))
      ∧ (main w).outcome ≠ Outcome.exit 5
      ∧ (308 ≤ w.BUFSIZ →
          main w = runCommand w mode (entries.map (fun p => strncpy p MOUNTPOINT_MAX_PATH))) := by
  have hres : getMountpoints w args
      = Except.ok (entries.map (fun p => strncpy p MOUNTPOINT_MAX_PATH)) := by
    rcases hsource with ⟨hne, rfl⟩ | ⟨rfl, content, hopen, hlines, rfl⟩
    · rw [if_neg hne] at hcount
      cases entries with
      | nil => exact absurd rfl hne
      | cons a as =>
        have hM : MOUNTPOINT_MAX_COUNT = 16 := rfl
        simp only [getMountpoints]
        rw [parseArguments_all w hmalloc _ 2 [] (by rw [hM]; omega)
          (by rw [hM]; simp only [List.length_nil]; omega)]
        simp
    · rw [if_pos rfl] at hcount
      rw [getMountpoints_config w content hopen hbuf hmalloc hlines,
        List.take_of_length_le (by
          have hM : MOUNTPOINT_MAX_COUNT = 16 := rfl
          omega)]
  have hlen : ¬ (entries.map (fun p => strncpy p MOUNTPOINT_MAX_PATH)).length
      ≥ MOUNTPOINT_MAX_COUNT := by
    have hM : MOUNTPOINT_MAX_COUNT = 16 := rfl
    rw [List.length_map, hM]
    split at hcount <;> omega
  have hmain : main w
      = checkOverflowAndRun w mode (entries.map (fun p => strncpy p MOUNTPOINT_MAX_PATH)) := by
    simp only [main, hargv, hmode, hperm, hres]
  refine ⟨hres, fun e he => readCStr_strncpy (hpaths e he), hmain, ?_, ?_⟩
  · rw [hmain]
    simp only [checkOverflowAndRun, hlen, if_false]
    split
    · simp [die]
    · rcases runCommand_outcome w mode
        (entries.map (fun p => strncpy p MOUNTPOINT_MAX_PATH)) with h | h <;>
        rw [h] <;> simp
  · intro hcap
    rw [hmain]
    have hsize : ¬ w.BUFSIZ < MAX (MOUNTPOINT_MAX_PATH + REMOUNT_COMMAND_LENGTH)
        (MOUNTPOINT_MAX_PATH + CHECK_COMMAND_LENGTH) := by
      rw [max_command_size]
      omega
    simp only [checkOverflowAndRun, hlen, if_false, hsize]

/-- C10 (amended): in configuration-file mode, for a file without NUL byte
whose lines each fit the line buffer and whose mountpoint lines have a path
shorter than `MOUNTPOINT_MAX_PATH` with no carriage return inside, and with
allocations that succeed, the resolved list holds, in file order, one
mountpoint for each of the first `MOUNTPOINT_MAX_COUNT` lines that are not
skipped (empty, or starting with the comment sign or a line terminator),
equal to the line with its trailing terminator stripped; each slot reads
back as that path. -/
theorem config_lines_resolved (w : World) (content : List Char)
    (hopen : w.config.orElse (fun _ => w.defconfig) = some content)
    (hbuf : 2 ≤ w.BUFSIZ)
    (hmalloc : ∀ k, k < MOUNTPOINT_MAX_COUNT → w.malloc k = true)
    (hlines : ∀ l ∈ splitLines content, ConfigLineOk w.BUFSIZ l) :
    getMountpoints w []
        = Except.ok (((specConfigPaths content).take MOUNTPOINT_MAX_COUNT).map
            (fun p => strncpy p MOUNTPOINT_MAX_PATH))
      ∧ ∀ p ∈ specConfigPaths content,
          readCStr (strncpy p MOUNTPOINT_MAX_PATH) = some p :=
  ⟨getMountpoints_config w content hopen hbuf hmalloc hlines,
    fun p hp => readCStr_strncpy (specConfigPaths_isPath hlines p hp)⟩

set_option maxRecDepth 100000 in
/-- C1 (counterexample): a configuration file of sixteen mountpoint lines of
three bytes ends the run with the too-many-mountpoints status 5, and of
fifteen mountpoint arguments only the first fourteen are resolved. -/
theorem sixteen_entries_not_resolved :
    (specConfigPaths sixteenLines).length = 16
      ∧ (main (sampleWorld ["remount", "ch"] 0 0 (some sixteenLines) (fun _ _ => 0))).outcome
          = Outcome.exit 5
      ∧ getMountpoints (sampleWorld fifteenArgs 0 0 none (fun _ _ => 0))
          ((fifteenArgs.drop 2).map String.toList)
          = Except.ok ((((fifteenArgs.drop 2).take 14).map String.toList).map
              (fun p => strncpy p MOUNTPOINT_MAX_PATH)) := by
  decide

set_option maxRecDepth 100000 in
/-- C2 (failing input): `remount ch /m1 ... /m17` as root with every probe
succeeding ends with status 0 after probing the first fourteen mountpoints:
the seventeen arguments are cut to fourteen without any error. -/
theorem seventeen_arguments_truncated :
    (main (sampleWorld seventeenArgs 0 0 none (fun _ _ => 0))).outcome = Outcome.exit 0
      ∧ systemCalls (main (sampleWorld seventeenArgs 0 0 none (fun _ _ => 0))).trace
          = (((seventeenArgs.drop 2).take 14).map String.toList).map roProbe := by
  decide

set_option maxRecDepth 100000 in
/-- C3 (failing input): `remount ch` with one argument of 257 bytes is not
rejected: resolution succeeds with a slot holding the first 256 bytes and no
NUL, the run does not end with status 3, and the executor then reads the
slot past its end. -/
theorem long_argument_not_rejected :
    getMountpoints longArgWorld [List.replicate 257 'a']
        = Except.ok [List.replicate 256 'a']
      ∧ (main longArgWorld).outcome ≠ Outcome.exit 3
      ∧ (main longArgWorld).outcome = Outcome.undefined := by
  decide

/-! ## The configuration loop ends -/

theorem fgetsRead_length_le : ∀ (m : Nat) (s : List Char),
    (fgetsRead m s).2.length ≤ s.length := by
  intro m
  induction m with
  | zero => intro s; simp [fgetsRead]
  | succ m ih =>
    intro s
    cases s with
    | nil => simp [fgetsRead]
    | cons c s =>
      simp only [fgetsRead]
      split
      · simp
      · have := ih s
        simp only [List.length_cons]
        omega

theorem fgets_consumes {cap : Nat} (hcap : 2 ≤ cap) {s buffer rest : List Char}
    (h : fgets cap s = some (buffer, rest)) : rest.length < s.length := by
  have h0 : ¬ cap = 0 := by omega
  have h1 : ¬ cap = 1 := by omega
  simp only [fgets, h0, h1, if_false] at h
  split at h
  · cases h
  · obtain ⟨m, hm⟩ : ∃ m, cap - 1 = m + 1 := ⟨cap - 2, by omega⟩
    rw [hm] at h
    cases s with
    | nil => contradiction
    | cons c s =>
      simp only [fgetsRead] at h
      split at h
      · simp only [Option.some.injEq, Prod.mk.injEq] at h
        rw [← h.2]
        simp
      · simp only [Option.some.injEq, Prod.mk.injEq] at h
        have := fgetsRead_length_le m s
        rw [← h.2]
        simp only [List.length_cons]
        omega

/-- With a line buffer of two bytes or more every `fgets` call consumes at
least one byte, so a fuel above the length of the file is never used up. -/
theorem parseConfiguration_ends (w : World) (hcap : 2 ≤ w.BUFSIZ) :
    ∀ (fuel : Nat) (config : List Char) (mountpoints : List (List Char)) (r : Run),
      config.length < fuel →
      parseConfiguration w fuel config mountpoints = Except.error r →
      r.outcome = Outcome.exit 3 ∨ r.outcome = Outcome.exit 4 := by
  intro fuel
  induction fuel with
  | zero => intro config mountpoints r hf _; omega
  | succ fuel ih =>
    intro config mountpoints r hf h
    simp only [parseConfiguration] at h
    split at h
    · split at h
      · cases h
      · rename_i buffer rest hget
        have hlt := fgets_consumes hcap hget
        split at h
        · exact ih _ _ _ (by omega) h
        · split at h
          · simp only [Except.error.injEq] at h
            subst h
            right; rfl
          · split at h
            · simp only [Except.error.injEq] at h
              subst h
              left; rfl
            · exact ih _ _ _ (by omega) h
    · cases h

/-! ## The claims at concrete inputs -/

set_option maxRecDepth 100000 in
/-- C10 (counterexample): a carriage return inside a line cuts the path
there; a mountpoint line of 256 bytes contributes no mountpoint, the run ends
with status 3; and of seventeen mountpoint lines only sixteen are resolved. -/
theorem config_line_not_kept :
    (specConfigPaths "/a\rb\n".toList = ["/a\rb".toList]
        ∧ getMountpoints (sampleWorld ["remount", "ch"] 0 0 (some "/a\rb\n".toList)
              (fun _ _ => 0)) []
            = Except.ok ["/a".toList ++ List.replicate 254 NUL])
      ∧ (specConfigPaths (List.replicate 256 'a' ++ ['\n']) = [List.replicate 256 'a']
        ∧ (main (sampleWorld ["remount", "ch"] 0 0
              (some (List.replicate 256 'a' ++ ['\n'])) (fun _ _ => 0))).outcome
            = Outcome.exit 3)
      ∧ ((specConfigPaths seventeenLines).length = 17
        ∧ getMountpoints (sampleWorld ["remount", "ch"] 0 0 (some seventeenLines)
              (fun _ _ => 0)) []
            = Except.ok (List.replicate 16 (strncpy "/a".toList MOUNTPOINT_MAX_PATH))) := by
  decide

set_option maxRecDepth 100000 in
/-- C1 (witness): `remount ch` with the sample configuration file resolves
to its two mountpoint lines, in order. -/
theorem resolved_list_is_source_witness :
    specConfigPaths sampleConfig = ["/a".toList, "/b".toList]
      ∧ (getMountpoints configWorld []
          = Except.ok (["/a".toList, "/b".toList].map (fun p => strncpy p MOUNTPOINT_MAX_PATH))
        ∧ (∀ e ∈ ["/a".toList, "/b".toList],
            readCStr (strncpy e MOUNTPOINT_MAX_PATH) = some e)
        ∧ main configWorld
          = checkOverflowAndRun configWorld CHECK
              (["/a".toList, "/b".toList].map (fun p => strncpy p MOUNTPOINT_MAX_PATH))
        ∧ (main configWorld).outcome ≠ Outcome.exit 5
        ∧ (308 ≤ configWorld.BUFSIZ →
            main configWorld
              = runCommand configWorld CHECK
                  (["/a".toList, "/b".toList].map
                    (fun p => strncpy p MOUNTPOINT_MAX_PATH)))) :=
  ⟨by decide,
    resolved_list_is_source configWorld "remount".toList "ch".toList [] CHECK
      ["/a".toList, "/b".toList] rfl (by decide) (by decide)
      (Or.inr ⟨rfl, sampleConfig, rfl, by decide, by decide⟩)
      (by decide) (by decide) (by decide) (fun _ _ => rfl)⟩

set_option maxRecDepth 100000 in
/-- C10 (witness): the sample configuration file, with a comment, a blank
line and a line ended by a carriage return and a newline. -/
theorem config_lines_resolved_witness :
    specConfigPaths sampleConfig = ["/a".toList, "/b".toList]
      ∧ (getMountpoints configWorld []
          = Except.ok (((specConfigPaths sampleConfig).take MOUNTPOINT_MAX_COUNT).map
              (fun p => strncpy p MOUNTPOINT_MAX_PATH))
        ∧ ∀ p ∈ specConfigPaths sampleConfig,
            readCStr (strncpy p MOUNTPOINT_MAX_PATH) = some p) :=
  ⟨by decide,
    config_lines_resolved configWorld sampleConfig rfl (by decide) (fun _ _ => rfl)
      (by decide)⟩

set_option maxRecDepth 100000 in
/-- C4 (witness): `remount ro /A /B /C` with the call for `/B` failing: three
commands in order and one warning, for `/B`. -/
theorem remount_one_command_per_mountpoint_witness :
    (systemCalls (runCommand abcWorld READ_ONLY
          (["/A".toList, "/B".toList, "/C".toList].map
            (fun p => strncpy p MOUNTPOINT_MAX_PATH))).trace
        = ["/A".toList, "/B".toList, "/C".toList].map (specRemountCommand READ_ONLY)
      ∧ stderrOf (runCommand abcWorld READ_ONLY
          (["/A".toList, "/B".toList, "/C".toList].map
            (fun p => strncpy p MOUNTPOINT_MAX_PATH))).trace
        = ((["/A".toList, "/B".toList, "/C".toList].enumFrom 0).filter
            (fun ip => abcWorld.system ip.1 (specRemountCommand READ_ONLY ip.2) != 0)).map
            (fun ip => remountWarning ip.2)
      ∧ (runCommand abcWorld READ_ONLY
          (["/A".toList, "/B".toList, "/C".toList].map
            (fun p => strncpy p MOUNTPOINT_MAX_PATH))).outcome = Outcome.exit 0)
      ∧ main abcWorld
        = ⟨[Event.setuid 0,
            Event.system "mount -o remount,ro \"/A\"".toList,
            Event.system "mount -o remount,ro \"/B\"".toList,
            Event.stderr "Warning: Could not remount \"/B\"".toList,
            Event.system "mount -o remount,ro \"/C\"".toList], Outcome.exit 0⟩ :=
  ⟨remount_one_command_per_mountpoint abcWorld READ_ONLY
      ["/A".toList, "/B".toList, "/C".toList] (Or.inl rfl) (by decide) (by decide),
    by decide⟩

set_option maxRecDepth 100000 in
/-- C5 (witness): checking `/a`, `/b`, `/c` where only the read-only probe of
`/b`, the second backend call, succeeds: `/b` gets one call and "is ro". -/
theorem check_short_circuit_witness :
    (∃ (events : List Event) (n : Nat) (rw : Option Int),
      (runCommand (sampleWorld [] 0 0 none (fun n _ => if n = 2 then 0 else 1)) CHECK
          ((["/a".toList] ++ "/b".toList :: ["/c".toList]).map
            (fun q => strncpy q MOUNTPOINT_MAX_PATH))).trace
        = (runCommand (sampleWorld [] 0 0 none (fun n _ => if n = 2 then 0 else 1)) CHECK
            (["/a".toList].map (fun q => strncpy q MOUNTPOINT_MAX_PATH))).trace
          ++ events
          ++ (checkLoop (sampleWorld [] 0 0 none (fun n _ => if n = 2 then 0 else 1))
              (["/c".toList].map (fun q => strncpy q MOUNTPOINT_MAX_PATH)) n rw).trace
      ∧ ((sampleWorld [] 0 0 none (fun n _ => if n = 2 then 0 else 1)).system
            (systemCalls
              (runCommand (sampleWorld [] 0 0 none (fun n _ => if n = 2 then 0 else 1)) CHECK
                (["/a".toList].map (fun q => strncpy q MOUNTPOINT_MAX_PATH))).trace).length
            (roProbe "/b".toList) = 0 →
          events = [Event.system (roProbe "/b".toList),
            Event.stdout ("/b".toList ++ " is ro\n".toList)])
      ∧ ((sampleWorld [] 0 0 none (fun n _ => if n = 2 then 0 else 1)).system
            (systemCalls
              (runCommand (sampleWorld [] 0 0 none (fun n _ => if n = 2 then 0 else 1)) CHECK
                (["/a".toList].map (fun q => strncpy q MOUNTPOINT_MAX_PATH))).trace).length
            (roProbe "/b".toList) ≠ 0 →
          ∃ line, events = [Event.system (roProbe "/b".toList),
            Event.system (rwProbe "/b".toList), Event.stdout line]))
      ∧ systemCalls (runCommand (sampleWorld [] 0 0 none (fun n _ => if n = 2 then 0 else 1))
          CHECK (["/a".toList, "/b".toList, "/c".toList].map
            (fun q => strncpy q MOUNTPOINT_MAX_PATH))).trace
        = [roProbe "/a".toList, rwProbe "/a".toList, roProbe "/b".toList,
            roProbe "/c".toList, rwProbe "/c".toList] :=
  ⟨check_short_circuit (sampleWorld [] 0 0 none (fun n _ => if n = 2 then 0 else 1))
      ["/a".toList] "/b".toList ["/c".toList] (by decide) (by decide),
    by decide⟩

set_option maxRecDepth 100000 in
/-- C6 (witness): `remount ch /` with the read-only probe failing and the
read-write probe succeeding prints "/ is rw" and ends with status 0. -/
theorem check_report_witness :
    (stdoutOf (runCommand rootCheckWorld CHECK
          (["/".toList].map (fun p => strncpy p MOUNTPOINT_MAX_PATH))).trace
        = specCheckReport rootCheckWorld.system 0 ["/".toList]
      ∧ (runCommand rootCheckWorld CHECK
          (["/".toList].map (fun p => strncpy p MOUNTPOINT_MAX_PATH))).outcome
        = Outcome.exit 0
      ∧ ∀ (n : Nat) (rw : Option Int),
        stdoutOf (checkLoop rootCheckWorld
            (["/".toList].map (fun p => strncpy p MOUNTPOINT_MAX_PATH)) n rw).trace
          = specCheckReport rootCheckWorld.system n ["/".toList])
      ∧ stdoutOf (main rootCheckWorld).trace = ["/ is rw\n".toList]
      ∧ (main rootCheckWorld).outcome = Outcome.exit 0 :=
  ⟨check_report rootCheckWorld ["/".toList] (by decide) (by decide), by decide, by decide⟩

set_option maxRecDepth 100000 in
/-- C7 (witness): `remount ro /data /backup` by an ordinary user ends with
status 2. -/
theorem permission_error_iff_witness :
    (main roUserWorld).outcome = Outcome.exit 2
      ∧ ((main roUserWorld).outcome = Outcome.exit 2 ↔
          ((READ_ONLY = READ_ONLY ∨ READ_ONLY = READ_WRITE) ∧ roUserWorld.euid ≠ 0)
            ∨ (READ_ONLY = READ_WRITE ∧ roUserWorld.uid ≠ 0)) :=
  ⟨by decide,
    permission_error_iff roUserWorld "remount".toList "ro".toList
      ["/data".toList, "/backup".toList] READ_ONLY rfl (by decide)⟩

set_option maxRecDepth 100000 in
/-- C8 (witness): ReadWrite with a real uid other than 0, and
`remount ro /data /backup` with an effective uid other than 0, both end with
status 2 and no backend call. -/
theorem fatal_exit_makes_no_backend_call_witness :
    ((main rwRealUserWorld).outcome = Outcome.exit 2
        ∧ systemCalls (main rwRealUserWorld).trace = [])
      ∧ ((main roUserWorld).outcome = Outcome.exit 2
        ∧ systemCalls (main roUserWorld).trace = []) :=
  ⟨⟨by decide, fatal_exit_makes_no_backend_call rwRealUserWorld 2 (by decide) (by decide)⟩,
    ⟨by decide, fatal_exit_makes_no_backend_call roUserWorld 2 (by decide) (by decide)⟩⟩

set_option maxRecDepth 100000 in
/-- C9 (witness): `remount ro /A /B /C` by root ends with status 0 when every
remount call fails. -/
theorem backend_results_keep_exit_status_witness :
    main (abcWorld.withSystem (fun _ _ => 1))
        = runCommand (abcWorld.withSystem (fun _ _ => 1)) READ_ONLY
            (["/A".toList, "/B".toList, "/C".toList].map
              (fun p => strncpy p MOUNTPOINT_MAX_PATH))
      ∧ (main (abcWorld.withSystem (fun _ _ => 1))).outcome = Outcome.exit 0 :=
  backend_results_keep_exit_status abcWorld (fun _ _ => 1) "remount".toList "ro".toList
    ["/A".toList, "/B".toList, "/C".toList] READ_ONLY
    (["/A".toList, "/B".toList, "/C".toList].map (fun p => strncpy p MOUNTPOINT_MAX_PATH))
    rfl (by decide) (by decide) (by decide) (by decide) (by decide) (by decide)

/-! ## More than the maximum count in the configuration file -/

theorem fgetsRead_complete_line :
    ∀ (body x : List Char) (m : Nat), '\n' ∉ body → body.length + 1 ≤ m →
      fgetsRead m (body ++ '\n' :: x) = (body ++ ['\n'], x) := by
  intro body
  induction body with
  | nil =>
    intro x m _ hm
    obtain ⟨k, rfl⟩ : ∃ k, m = k + 1 := ⟨m - 1, by simp at hm; omega⟩
    simp [fgetsRead]
  | cons c body ih =>
    intro x m hn hm
    obtain ⟨k, rfl⟩ : ∃ k, m = k + 1 := ⟨m - 1, by simp at hm; omega⟩
    have hc : c ≠ '\n' := fun e => hn (by simp [e])
    have hb : '\n' ∉ body := fun e => hn (by simp [e])
    have hk : body.length + 1 ≤ k := by simp at hm; omega
    simp [fgetsRead, hc, ih x k hb hk]

/-- The parser on a file that starts with complete lines holding enough
mountpoint lines to fill every slot: what follows them is never read. -/
theorem parseConfiguration_leading_lines (w : World)
    (hmalloc : ∀ k, k < MOUNTPOINT_MAX_COUNT → w.malloc k = true) (tail : List Char) :
    ∀ (ls : List (List Char)) (pre : List Char) (fuel : Nat)
      (mountpoints : List (List Char)),
      splitLines pre = ls → (pre ++ tail).length < fuel →
      (∀ l ∈ ls, ConfigLineOk w.BUFSIZ l ∧ '\n' ∈ l) →
      MOUNTPOINT_MAX_COUNT ≤ mountpoints.length + (lineSlots ls).length →
      parseConfiguration w fuel (pre ++ tail) mountpoints
        = Except.ok (mountpoints
            ++ (lineSlots ls).take (MOUNTPOINT_MAX_COUNT - mountpoints.length)) := by
  intro ls
  induction ls with
  | nil =>
    intro pre fuel mountpoints _ hfuel _ hfull
    obtain ⟨f, rfl⟩ : ∃ f, fuel = f + 1 := ⟨fuel - 1, by omega⟩
    have hk : ¬ mountpoints.length < MOUNTPOINT_MAX_COUNT := by
      simp only [lineSlots, List.filter_nil, List.map_nil, List.length_nil] at hfull
      omega
    simp [parseConfiguration, hk, lineSlots]
  | cons l ls ih =>
    intro pre fuel mountpoints hsplit hfuel hok hfull
    obtain ⟨rest, hs, hrest, hne, _, hshape⟩ := splitLines_cons pre l ls hsplit
    obtain ⟨⟨hfit, hnul, hpath⟩, hnl⟩ := hok l (List.mem_cons_self _ _)
    have hoks : ∀ l' ∈ ls, ConfigLineOk w.BUFSIZ l' ∧ '\n' ∈ l' :=
      fun l' h' => hok l' (List.mem_cons_of_mem _ h')
    obtain ⟨body, hbody, hnb⟩ : ∃ body, l = body ++ ['\n'] ∧ '\n' ∉ body := by
      rcases hshape with h | h
      · exact h
      · exact absurd hnl h
    obtain ⟨f, rfl⟩ : ∃ f, fuel = f + 1 := ⟨fuel - 1, by omega⟩
    have hpos : 0 < l.length := List.length_pos.2 hne
    have hcfg : pre ++ tail = l ++ (rest ++ tail) := by rw [hs, List.append_assoc]
    have hf : (rest ++ tail).length < f := by
      rw [hcfg, List.length_append] at hfuel
      omega
    have hread : ∀ m, l.length ≤ m → fgetsRead m (pre ++ tail) = (l, rest ++ tail) := by
      intro m hm
      rw [hcfg, hbody, List.append_assoc, List.singleton_append]
      rw [hbody, List.length_append, List.length_singleton] at hm
      exact fgetsRead_complete_line body _ m hnb hm
    by_cases hk : mountpoints.length < MOUNTPOINT_MAX_COUNT
    · simp only [parseConfiguration, hk, if_true, fgets_line hne hcfg hfit hread]
      by_cases hskip : specSkipped l = true
      · have hslots : lineSlots (l :: ls) = lineSlots ls := by
          simp [lineSlots, List.filter_cons, hskip]
        rw [if_pos ((skip_condition hne hnul).2 hskip),
          ih rest f mountpoints hrest hf hoks (by rw [← hslots]; exact hfull), hslots]
      · rw [if_neg (fun h => hskip ((skip_condition hne hnul).1 h))]
        have hp := hpath.resolve_left hskip
        have hbytes : pathBytes l = specStrip l :=
          pathBytes_eq_specStrip (Or.inl ⟨body, hbody, hnb⟩) hp.1
        have hlen : ¬ strcspn l "\r\n".toList ≥ MOUNTPOINT_MAX_PATH := by
          rw [strcspn_of_not_mem hnul, hbytes]
          omega
        have hm : ¬ w.malloc mountpoints.length = false := by
          rw [hmalloc _ hk]
          simp
        have hslots : lineSlots (l :: ls)
            = strncpy (specStrip l) MOUNTPOINT_MAX_PATH :: lineSlots ls := by
          simp [lineSlots, List.filter_cons, hskip]
        have hfull2 : MOUNTPOINT_MAX_COUNT
            ≤ (mountpoints ++ [strncpy (specStrip l) MOUNTPOINT_MAX_PATH]).length
              + (lineSlots ls).length := by
          rw [hslots] at hfull
          simp only [List.length_append, List.length_singleton, List.length_cons] at hfull ⊢
          omega
        rw [if_neg hm, if_neg hlen, strncpy_line hnul, hbytes,
          ih rest f _ hrest hf hoks hfull2]
        obtain ⟨j, hj⟩ : ∃ j, MOUNTPOINT_MAX_COUNT - mountpoints.length = j + 1 :=
          ⟨MOUNTPOINT_MAX_COUNT - mountpoints.length - 1, by omega⟩
        have hj2 : MOUNTPOINT_MAX_COUNT
            - (mountpoints ++ [strncpy (specStrip l) MOUNTPOINT_MAX_PATH]).length = j := by
          simp only [List.length_append, List.length_singleton]
          omega
        rw [hslots, hj, hj2, List.take_succ_cons]
        simp
    · have h0 : MOUNTPOINT_MAX_COUNT - mountpoints.length = 0 := by omega
      simp [parseConfiguration, hk, h0]

/-- C11 (amended): in configuration-file mode, for a file that starts with
complete lines read as the specification describes, `MOUNTPOINT_MAX_COUNT` or
more of them mountpoint lines, with allocations that succeed, parsing stops
once `MOUNTPOINT_MAX_COUNT` mountpoints are read and the rest of the file,
whatever it holds, is ignored silently; the run then ends with the
too-many-mountpoints status 5, its only event the error message, and no
mountpoint is processed. -/
theorem config_overflow_is_fatal (w : World) (argv0 argv1 : CStr) (mode : remount_mode)
    (pre tail : List Char)
    (hargv : w.argv = [argv0, argv1])
    (hmode : getRemountMode argv0 argv1 = Except.ok mode)
    (hperm : checkPermissions w mode = none)
    (hopen : w.config.orElse (fun _ => w.defconfig) = some (pre ++ tail))
    (hmalloc : ∀ k, k < MOUNTPOINT_MAX_COUNT → w.malloc k = true)
    (hlines : ∀ l ∈ splitLines pre, ConfigLineOk w.BUFSIZ l ∧ '\n' ∈ l)
    (hmany : MOUNTPOINT_MAX_COUNT ≤ (specConfigPaths pre).length) :
    getMountpoints w []
        = Except.ok (((specConfigPaths pre).take MOUNTPOINT_MAX_COUNT).map
            (fun p => strncpy p MOUNTPOINT_MAX_PATH))
      ∧ main w = die 5 ("To many mountpoints, maximum is 16".toList)
      ∧ (main w).outcome = Outcome.exit 5
      ∧ systemCalls (main w).trace = [] := by
  have hres : getMountpoints w []
      = Except.ok (((specConfigPaths pre).take MOUNTPOINT_MAX_COUNT).map
          (fun p => strncpy p MOUNTPOINT_MAX_PATH)) := by
    simp only [getMountpoints, hopen]
    rw [parseConfiguration_leading_lines w hmalloc tail (splitLines pre) pre _ [] rfl
      (Nat.lt_succ_self _) hlines
      (by simpa [lineSlots, specConfigPaths] using hmany)]
    simp [lineSlots, specConfigPaths, List.map_take]
  have hlen : (((specConfigPaths pre).take MOUNTPOINT_MAX_COUNT).map
      (fun p => strncpy p MOUNTPOINT_MAX_PATH)).length ≥ MOUNTPOINT_MAX_COUNT := by
    rw [List.length_map, List.length_take]
    omega
  have hfmt : fmtd MOUNTPOINT_MAX_COUNT = "16".toList := by decide
  have hmain : main w = die 5 ("To many mountpoints, maximum is 16".toList) := by
    simp only [main, hargv, hmode, hperm, hres, checkOverflowAndRun, hlen, if_true, hfmt]
    rfl
  refine ⟨hres, hmain, ?_, ?_⟩
  · rw [hmain]; rfl
  · rw [hmain]; rfl


/-! ## Which runs reach the executor -/

theorem getMountpoints_ends (w : World) (hcap : 2 ≤ w.BUFSIZ) (args : List CStr) (r : Run)
    (h : getMountpoints w args = Except.error r) :
    r.outcome = Outcome.exit 3 ∨ r.outcome = Outcome.exit 4 := by
  unfold getMountpoints at h
  split at h
  · split at h
    · simp only [Except.error.injEq] at h
      subst h
      left; rfl
    · exact parseConfiguration_ends w hcap _ _ _ r (Nat.lt_succ_self _) h
  · exact Or.inr (parseArguments_error w _ _ _ r h).2

/-- Every run of `main` either ends before the executor, without any backend
call, with a status from 0 to 5 (or in the configuration loop that never
ends, when the line buffer has less than two bytes), or is the run of the
executor on a resolved list that passed the count and size checks. -/
theorem main_shape (w : World) :
    (systemCalls (main w).trace = [] ∧
      ((∃ s, s ≤ 5 ∧ (main w).outcome = Outcome.exit s)
        ∨ ((main w).outcome = Outcome.diverges ∧ w.BUFSIZ < 2)))
    ∨ (∃ (argv0 argv1 : CStr) (args : List CStr) (mode : remount_mode)
        (slots : List (List Char)),
        w.argv = argv0 :: argv1 :: args
          ∧ getRemountMode argv0 argv1 = Except.ok mode
          ∧ checkPermissions w mode = none
          ∧ getMountpoints w args = Except.ok slots
          ∧ slots.length < MOUNTPOINT_MAX_COUNT
          ∧ 308 ≤ w.BUFSIZ
          ∧ main w = runCommand w mode slots) := by
  unfold main
  split
  · left; exact ⟨rfl, Or.inl ⟨1, by omega, rfl⟩⟩
  · left; exact ⟨rfl, Or.inl ⟨1, by omega, rfl⟩⟩
  · rename_i argv0 argv1 args hargv
    split
    · rename_i r hr
      left
      have := getRemountMode_error argv0 argv1 r hr
      refine ⟨this.1, Or.inl ?_⟩
      rcases this.2 with h | h
      · exact ⟨0, by omega, h⟩
      · exact ⟨1, by omega, h⟩
    · rename_i mode hmode
      split
      · rename_i r hr
        left
        have := checkPermissions_some w mode r hr
        exact ⟨this.1, Or.inl ⟨2, by omega, this.2⟩⟩
      · rename_i hperm
        split
        · rename_i r hr
          left
          have h1 := getMountpoints_error w args r hr
          refine ⟨h1.1, ?_⟩
          rcases h1.2 with h | h | h
          · exact Or.inl ⟨3, by omega, h⟩
          · exact Or.inl ⟨4, by omega, h⟩
          · right
            refine ⟨h, ?_⟩
            by_contra hc
            rcases getMountpoints_ends w (by omega) args r hr with h2 | h2 <;>
              rw [h] at h2 <;> cases h2
        · rename_i slots hres
          unfold checkOverflowAndRun
          split
          · left; exact ⟨rfl, Or.inl ⟨5, by omega, rfl⟩⟩
          · rename_i hcount
            split
            · left; exact ⟨rfl, Or.inl ⟨4, by omega, rfl⟩⟩
            · rename_i hsize
              right
              rw [max_command_size] at hsize
              exact ⟨argv0, argv1, args, mode, slots, hargv, hmode, hperm, hres,
                by omega, by omega, rfl⟩

/-! ## Slots and commands -/

theorem parseConfiguration_slots (w : World) (P : List Char → Prop)
    (hP : ∀ src, P (strncpy src MOUNTPOINT_MAX_PATH)) :
    ∀ (fuel : Nat) (config : List Char) (mountpoints slots : List (List Char)),
      (∀ s ∈ mountpoints, P s) →
      parseConfiguration w fuel config mountpoints = Except.ok slots →
      ∀ s ∈ slots, P s := by
  intro fuel
  induction fuel with
  | zero => intro config mountpoints slots _ h; simp [parseConfiguration] at h
  | succ fuel ih =>
    intro config mountpoints slots hm h
    simp only [parseConfiguration] at h
    split at h
    · split at h
      · simp only [Except.ok.injEq] at h
        subst h
        exact hm
      · split at h
        · exact ih _ _ _ hm h
        · split at h
          · cases h
          · split at h
            · cases h
            · refine ih _ _ _ ?_ h
              intro s hs
              rcases List.mem_append.1 hs with h1 | h1
              · exact hm s h1
              · rw [List.mem_singleton] at h1
                subst h1
                exact hP _
    · simp only [Except.ok.injEq] at h
      subst h
      exact hm

theorem parseArguments_ok_eq (w : World) :
    ∀ (argv : List CStr) (i : Nat) (mountpoints slots : List (List Char)),
      parseArguments w i argv mountpoints = Except.ok slots →
      slots = mountpoints
        ++ (argv.take (MOUNTPOINT_MAX_COUNT - i)).map
            (fun p => strncpy p MOUNTPOINT_MAX_PATH) := by
  intro argv
  induction argv with
  | nil =>
    intro i mountpoints slots h
    simp only [parseArguments, Except.ok.injEq] at h
    simp [h]
  | cons arg argv ih =>
    intro i mountpoints slots h
    simp only [parseArguments] at h
    split at h
    · rename_i hi
      split at h
      · cases h
      · obtain ⟨j, hj⟩ : ∃ j, MOUNTPOINT_MAX_COUNT - i = j + 1 :=
          ⟨MOUNTPOINT_MAX_COUNT - i - 1, by omega⟩
        have hj2 : MOUNTPOINT_MAX_COUNT - (i + 1) = j := by omega
        rw [ih _ _ _ h, hj, hj2, List.take_succ_cons]
        simp
    · rename_i hi
      simp only [Except.ok.injEq] at h
      have h0 : MOUNTPOINT_MAX_COUNT - i = 0 := by omega
      simp [h, h0]

theorem getMountpoints_args_eq (w : World) (arg : CStr) (args : List CStr)
    (slots : List (List Char)) (h : getMountpoints w (arg :: args) = Except.ok slots) :
    slots = ((arg :: args).take 14).map (fun p => strncpy p MOUNTPOINT_MAX_PATH) := by
  simp only [getMountpoints] at h
  have := parseArguments_ok_eq w _ 2 [] slots h
  simpa using this

theorem getMountpoints_slot_length (w : World) (args : List CStr) (slots : List (List Char))
    (h : getMountpoints w args = Except.ok slots) :
    ∀ s ∈ slots, s.length = MOUNTPOINT_MAX_PATH := by
  cases args with
  | nil =>
    simp only [getMountpoints] at h
    split at h
    · cases h
    · exact parseConfiguration_slots w _ (fun src => strncpy_length src _) _ _ _ _
        (fun s hs => by cases hs) h
  | cons arg args =>
    rw [getMountpoints_args_eq w arg args slots h]
    intro s hs
    rcases List.mem_map.1 hs with ⟨p, _, rfl⟩
    exact strncpy_length _ _

theorem strcpy_some {cap : Nat} {src b : CStr} (h : strcpy cap src = some b) : b = src := by
  unfold strcpy at h
  split at h
  · exact (Option.some.inj h).symm
  · cases h

theorem strcat_some {cap : Nat} {buffer src b : CStr} (h : strcat cap buffer src = some b) :
    b = buffer ++ src := by
  unfold strcat at h
  split at h
  · exact (Option.some.inj h).symm
  · cases h

theorem readCStr_some {s : List Char} {p : CStr} (h : readCStr s = some p) :
    p = cstr s ∧ NUL ∈ s := by
  unfold readCStr at h
  split at h
  · rename_i hm
    exact ⟨(Option.some.inj h).symm, hm⟩
  · cases h

theorem remountLoop_calls_bound (w : World) (mode : remount_mode) :
    ∀ (slots : List (List Char)) (n : Nat),
      (∀ s ∈ slots, s.length ≤ MOUNTPOINT_MAX_PATH) →
      ∀ c ∈ systemCalls (remountLoop w mode slots n).trace,
        c.length + 1 ≤ MOUNTPOINT_MAX_PATH + REMOUNT_COMMAND_LENGTH := by
  intro slots
  induction slots with
  | nil => intro n _ c hc; simp [remountLoop, systemCalls] at hc
  | cons s slots ih =>
    intro n hs c hc
    have hrest := ih (n + 1) (fun t ht => hs t (List.mem_cons_of_mem _ ht))
    have hlen := hs s (List.mem_cons_self _ _)
    simp only [remountLoop] at hc
    cases h1 : strcpy w.BUFSIZ REMOUNT_COMMAND_START with
    | none => simp only [h1, orUndefined, systemCalls, List.not_mem_nil] at hc
    | some b1 =>
      have e1 := strcpy_some h1
      subst e1
      simp only [h1, orUndefined] at hc
      split at hc
      · simp [die, systemCalls] at hc
      · rename_i option hopt
        have hol := remount_option_length hopt
        cases h2 : strcat w.BUFSIZ REMOUNT_COMMAND_START option with
        | none => simp only [h2, systemCalls, List.not_mem_nil] at hc
        | some b2 =>
          have e2 := strcat_some h2
          subst e2
          simp only [h2] at hc
          cases h3 : readCStr s with
          | none => simp only [h3, systemCalls, List.not_mem_nil] at hc
          | some path =>
            obtain ⟨e3, hnul⟩ := readCStr_some h3
            subst e3
            have hplen := cstr_length_lt hnul
            simp only [h3] at hc
            cases h4 : strcat w.BUFSIZ (REMOUNT_COMMAND_START ++ option) (cstr s) with
            | none => simp only [h4, systemCalls, List.not_mem_nil] at hc
            | some b4 =>
              have e4 := strcat_some h4
              subst e4
              simp only [h4] at hc
              cases h5 : strcat w.BUFSIZ (REMOUNT_COMMAND_START ++ option ++ cstr s)
                  REMOUNT_COMMAND_END with
              | none => simp only [h5, systemCalls, List.not_mem_nil] at hc
              | some b5 =>
                have e5 := strcat_some h5
                subst e5
                simp only [h5, Run.after, List.cons_append, systemCalls,
                  systemCalls_append, List.mem_cons, List.mem_append] at hc
                have hstart : REMOUNT_COMMAND_START.length = 17 := by decide
                have hend : REMOUNT_COMMAND_END.length = 1 := by decide
                have hR : REMOUNT_COMMAND_LENGTH = 23 := by decide
                rcases hc with rfl | hc | hc
                · simp only [List.length_append]
                  omega
                · split at hc <;> simp [systemCalls] at hc
                · exact hrest c hc

theorem checkLoop_calls_bound (w : World) :
    ∀ (slots : List (List Char)) (n : Nat) (rw : Option Int),
      (∀ s ∈ slots, s.length ≤ MOUNTPOINT_MAX_PATH) →
      ∀ c ∈ systemCalls (checkLoop w slots n rw).trace,
        c.length + 1 ≤ MOUNTPOINT_MAX_PATH + CHECK_COMMAND_LENGTH := by
  intro slots
  induction slots with
  | nil => intro n rw _ c hc; simp [checkLoop, systemCalls] at hc
  | cons s slots ih =>
    intro n rw hs c hc
    have hrest := fun m r => ih m r (fun t ht => hs t (List.mem_cons_of_mem _ ht))
    have hlen := hs s (List.mem_cons_self _ _)
    simp only [checkLoop] at hc
    cases h1 : strcpy w.BUFSIZ CHECK_COMMAND_START with
    | none => simp only [h1, orUndefined, systemCalls, List.not_mem_nil] at hc
    | some b1 =>
      have e1 := strcpy_some h1
      subst e1
      simp only [h1, orUndefined] at hc
      cases h3 : readCStr s with
      | none => simp only [h3, systemCalls, List.not_mem_nil] at hc
      | some path =>
        obtain ⟨e3, hnul⟩ := readCStr_some h3
        subst e3
        have hplen := cstr_length_lt hnul
        simp only [h3] at hc
        cases h4 : strcat w.BUFSIZ CHECK_COMMAND_START (cstr s) with
        | none => simp only [h4, systemCalls, List.not_mem_nil] at hc
        | some b4 =>
          have e4 := strcat_some h4
          subst e4
          simp only [h4] at hc
          cases h5 : strcat w.BUFSIZ (CHECK_COMMAND_START ++ cstr s) CHECK_COMMAND_END with
          | none => simp only [h5, systemCalls, List.not_mem_nil] at hc
          | some b5 =>
            have e5 := strcat_some h5
            subst e5
            have hstart : CHECK_COMMAND_START.length = 49 := by decide
            have hend : CHECK_COMMAND_END.length = 2 := by decide
            have hC : CHECK_COMMAND_LENGTH = 52 := by decide
            have hb : ((CHECK_COMMAND_START ++ cstr s ++ CHECK_COMMAND_END).set
                CHECK_COMMAND_INDEX 'o').length + 1
                ≤ MOUNTPOINT_MAX_PATH + CHECK_COMMAND_LENGTH := by
              simp only [List.length_set, List.length_append]
              omega
            have hb2 : (((CHECK_COMMAND_START ++ cstr s ++ CHECK_COMMAND_END).set
                CHECK_COMMAND_INDEX 'o').set CHECK_COMMAND_INDEX 'w').length + 1
                ≤ MOUNTPOINT_MAX_PATH + CHECK_COMMAND_LENGTH := by
              simp only [List.length_set, List.length_append]
              omega
            simp only [h5] at hc
            split at hc
            · rename_i hro
              simp only [hro, ne_eq, not_true_eq_false, if_false, Run.after,
                List.singleton_append, List.cons_append, List.nil_append, systemCalls,
                List.mem_cons] at hc
              rcases hc with rfl | hc
              · exact hb
              · exact hrest _ _ c hc
            · rename_i hro
              simp only [ne_eq, hro, not_false_eq_true, if_true, Run.after,
                List.singleton_append, List.cons_append, List.nil_append, systemCalls,
                List.mem_cons] at hc
              split at hc
              all_goals
                simp only [Run.after, List.cons_append, List.nil_append, systemCalls,
                  List.mem_cons] at hc
                rcases hc with rfl | rfl | hc
                · exact hb
                · exact hb2
                · exact hrest _ _ c hc

theorem runCommand_calls_bound (w : World) (mode : remount_mode) (slots : List (List Char))
    (hs : ∀ s ∈ slots, s.length ≤ MOUNTPOINT_MAX_PATH) :
    ∀ c ∈ systemCalls (runCommand w mode slots).trace,
      c.length + 1 ≤ MAX (MOUNTPOINT_MAX_PATH + REMOUNT_COMMAND_LENGTH)
        (MOUNTPOINT_MAX_PATH + CHECK_COMMAND_LENGTH) := by
  have hR : REMOUNT_COMMAND_LENGTH = 23 := by decide
  have hC : CHECK_COMMAND_LENGTH = 52 := by decide
  have hM : MOUNTPOINT_MAX_PATH = 256 := rfl
  rw [max_command_size]
  intro c hc
  cases mode
  · simp only [runCommand, true_or, if_true, Run.after, List.singleton_append,
      systemCalls] at hc
    have := remountLoop_calls_bound w READ_ONLY slots 0 hs c hc
    omega
  · simp only [runCommand, or_true, if_true, Run.after, List.singleton_append,
      systemCalls] at hc
    have := remountLoop_calls_bound w READ_WRITE slots 0 hs c hc
    omega
  · have hrun : runCommand w CHECK slots = checkLoop w slots 0 none := by
      simp [runCommand]
    rw [hrun] at hc
    have := checkLoop_calls_bound w slots 0 none hs c hc
    omega

/-- Below the worst-case command size the program makes no backend call, and
ends with status 4 once the list is resolved within the count limit. -/
theorem small_bufsiz_no_command (w : World)
    (hsmall : w.BUFSIZ < MAX (MOUNTPOINT_MAX_PATH + REMOUNT_COMMAND_LENGTH)
      (MOUNTPOINT_MAX_PATH + CHECK_COMMAND_LENGTH)) :
    systemCalls (main w).trace = []
      ∧ ∀ (mode : remount_mode) (slots : List (List Char)),
          slots.length < MOUNTPOINT_MAX_COUNT →
          (checkOverflowAndRun w mode slots).outcome = Outcome.exit 4 := by
  refine ⟨?_, ?_⟩
  · rcases main_shape w with ⟨h, _⟩ | ⟨_, _, _, _, _, _, _, _, _, _, hcap, _⟩
    · exact h
    · rw [max_command_size] at hsmall
      omega
  · intro mode slots hcount
    simp only [checkOverflowAndRun, ge_iff_le, Nat.not_le.2 hcount, if_false, hsmall,
      if_true]
    rfl

/-- With mountpoint arguments shorter than `MOUNTPOINT_MAX_PATH`, no copy
into the working buffer and no read of a slot leaves its object, and every
command passed to the backend, counted with its terminating NUL, is within
the worst-case size that the size check compares with `BUFSIZ`. -/
theorem commands_fit_of_short_arguments (w : World)
    (hargs : ∀ a ∈ (w.argv.drop 2).take 14, (cstr a).length < MOUNTPOINT_MAX_PATH) :
    (main w).outcome ≠ Outcome.undefined
      ∧ ∀ c ∈ systemCalls (main w).trace,
          c.length + 1 ≤ MAX (MOUNTPOINT_MAX_PATH + REMOUNT_COMMAND_LENGTH)
              (MOUNTPOINT_MAX_PATH + CHECK_COMMAND_LENGTH)
            ∧ MAX (MOUNTPOINT_MAX_PATH + REMOUNT_COMMAND_LENGTH)
              (MOUNTPOINT_MAX_PATH + CHECK_COMMAND_LENGTH) ≤ w.BUFSIZ := by
  refine ⟨?_, ?_⟩
  · rcases main_shape w with ⟨_, ⟨s, _, h⟩ | ⟨h, _⟩⟩
      | ⟨a0, a1, args, mode, slots, hargv, _, _, hres, _, hcap, hmain⟩
    · rw [h]; simp
    · rw [h]; simp
    · rw [hargv] at hargs
      simp only [List.drop_succ_cons, List.drop_zero] at hargs
      rw [hmain, runCommand_terminated w mode slots hcap
        (getMountpoints_terminated w args slots hargs hres)]
      simp
  · intro c hc
    rcases main_shape w with ⟨h, _⟩ | ⟨_, _, args, mode, slots, _, _, _, hres, _, hcap, hmain⟩
    · rw [h] at hc
      cases hc
    · rw [hmain] at hc
      refine ⟨runCommand_calls_bound w mode slots ?_ c hc, ?_⟩
      · intro s hs
        exact le_of_eq (getMountpoints_slot_length w args slots hres s hs)
      · rw [max_command_size]
        exact hcap

theorem char_eq_of_toNat_eq {a b : Char} (h : a.toNat = b.toNat) : a = b := by
  rw [← Char.ofNat_toNat a, ← Char.ofNat_toNat b, h]

theorem strncmp_eq_zero_iff :
    ∀ (lit : CStr), NUL ∉ lit → ∀ (a : CStr), strncmp a lit lit.length = 0 ↔ lit <+: a := by
  intro lit
  induction lit with
  | nil => intro _ a; simp [strncmp]
  | cons x bs ih =>
    intro hlit a
    have hx : x ≠ NUL := fun e => hlit (by simp [e])
    have hbs : NUL ∉ bs := fun e => hlit (by simp [e])
    have hx0 : x.toNat ≠ 0 := by
      intro h0
      apply hx
      apply char_eq_of_toNat_eq
      rw [h0]
      rfl
    cases a with
    | nil =>
      simp only [List.length_cons, strncmp]
      constructor
      · intro h; omega
      · intro h; simp at h
    | cons y as =>
      simp only [List.length_cons, strncmp]
      by_cases hyx : y = x
      · subst hyx
        rw [if_pos rfl, ih hbs as]
        constructor
        · intro h
          obtain ⟨t, ht⟩ := h
          exact ⟨t, by simp [← ht]⟩
        · intro h
          obtain ⟨t, ht⟩ := h
          simp only [List.cons_append, List.cons.injEq, true_and] at ht
          exact ⟨t, ht⟩
      · rw [if_neg hyx]
        constructor
        · intro h
          exfalso
          apply hyx
          apply char_eq_of_toNat_eq
          omega
        · intro h
          obtain ⟨t, ht⟩ := h
          simp only [List.cons_append, List.cons.injEq] at ht
          exact absurd ht.1.symm hyx

theorem leading_two_bytes {a b c d : Char} {l : CStr} (h1 : [a, b] <+: l) (h2 : [c, d] <+: l) :
    a = c ∧ b = d := by
  obtain ⟨t, rfl⟩ := h1
  obtain ⟨t', ht⟩ := h2
  simp only [List.cons_append, List.nil_append, List.cons.injEq] at ht
  exact ⟨ht.1.symm, ht.2.1.symm⟩

/-- C13 (amended): a missing mode argument ends the run with status 1;
ReadOnly, ReadWrite and Check are selected exactly by the arguments that
start with "ro", "rw" and "ch"; and an `argv[1]` that starts with none of
"ro", "rw", "ch", "--help", "-h" ends the run with status 1, the run being
the error message alone, whatever the uids, the mountpoint arguments and the
configuration files. -/
theorem mode_selected_by_leading_bytes (w : World) :
    (w.argv.length < 2 →
        main w = die 1 "Expected at least one argument, use --help to get help".toList)
      ∧ ∀ (argv0 argv1 : CStr) (args : List CStr), w.argv = argv0 :: argv1 :: args →
          (getRemountMode argv0 argv1 = Except.ok READ_ONLY ↔ "ro".toList <+: argv1)
          ∧ (getRemountMode argv0 argv1 = Except.ok READ_WRITE ↔ "rw".toList <+: argv1)
          ∧ (getRemountMode argv0 argv1 = Except.ok CHECK ↔ "ch".toList <+: argv1)
          ∧ (¬ "ro".toList <+: argv1 → ¬ "rw".toList <+: argv1 → ¬ "ch".toList <+: argv1 →
              ¬ "--help".toList <+: argv1 → ¬ "-h".toList <+: argv1 →
              (main w).outcome = Outcome.exit 1
                ∧ main w = die 1 ("Unknown mode \"".toList ++ cstr argv1
                    ++ "\"\nRun \"".toList ++ cstr argv0 ++ " --help\" to get help".toList)) := by
  refine ⟨?_, ?_⟩
  · intro hlen
    unfold main
    split
    · rfl
    · rfl
    · rename_i h
      rw [h] at hlen
      simp only [List.length_cons] at hlen
      omega
  · intro argv0 argv1 args hargv
    have h_ro : strncmp argv1 "ro".toList 2 = 0 ↔ "ro".toList <+: argv1 :=
      strncmp_eq_zero_iff "ro".toList (by decide) argv1
    have h_rw : strncmp argv1 "rw".toList 2 = 0 ↔ "rw".toList <+: argv1 :=
      strncmp_eq_zero_iff "rw".toList (by decide) argv1
    have h_ch : strncmp argv1 "ch".toList 2 = 0 ↔ "ch".toList <+: argv1 :=
      strncmp_eq_zero_iff "ch".toList (by decide) argv1
    have h_help : strncmp argv1 "--help".toList 6 = 0 ↔ "--help".toList <+: argv1 :=
      strncmp_eq_zero_iff "--help".toList (by decide) argv1
    have h_h : strncmp argv1 "-h".toList 2 = 0 ↔ "-h".toList <+: argv1 :=
      strncmp_eq_zero_iff "-h".toList (by decide) argv1
    have x1 : "ro".toList <+: argv1 → ¬ "rw".toList <+: argv1 :=
      fun a b => absurd (leading_two_bytes a b).2 (by decide)
    have x2 : "ro".toList <+: argv1 → ¬ "ch".toList <+: argv1 :=
      fun a b => absurd (leading_two_bytes a b).1 (by decide)
    have x3 : "rw".toList <+: argv1 → ¬ "ch".toList <+: argv1 :=
      fun a b => absurd (leading_two_bytes a b).1 (by decide)
    simp only [getRemountMode, h_ro, h_rw, h_ch, h_help, h_h]
    refine ⟨?_, ?_, ?_, ?_⟩
    · by_cases a1 : "ro".toList <+: argv1
      · simp only [a1, if_true]
      · by_cases a2 : "rw".toList <+: argv1
        · simp only [a1, a2, if_true, if_false, Except.ok.injEq, reduceCtorEq]
        · by_cases a3 : "ch".toList <+: argv1
          · simp only [a1, a2, a3, if_true, if_false, Except.ok.injEq, reduceCtorEq]
          · simp only [a1, a2, a3, if_false, iff_false]
            split <;> exact fun h => by cases h
    · by_cases a1 : "ro".toList <+: argv1
      · simp only [a1, if_true, x1 a1, Except.ok.injEq, reduceCtorEq]
      · by_cases a2 : "rw".toList <+: argv1
        · simp only [a1, a2, if_true, if_false]
        · by_cases a3 : "ch".toList <+: argv1
          · simp only [a1, a2, a3, if_true, if_false, Except.ok.injEq, reduceCtorEq]
          · simp only [a1, a2, a3, if_false, iff_false]
            split <;> exact fun h => by cases h
    · by_cases a1 : "ro".toList <+: argv1
      · simp only [a1, if_true, x2 a1, Except.ok.injEq, reduceCtorEq]
      · by_cases a2 : "rw".toList <+: argv1
        · simp only [a1, a2, if_true, if_false, x3 a2, Except.ok.injEq, reduceCtorEq]
        · by_cases a3 : "ch".toList <+: argv1
          · simp only [a1, a2, a3, if_true, if_false]
          · simp only [a1, a2, a3, if_false, iff_false]
            split <;> exact fun h => by cases h
    · intro n1 n2 n3 n4 n5
      have hmain : main w = die 1 ("Unknown mode \"".toList ++ cstr argv1
          ++ "\"\nRun \"".toList ++ cstr argv0 ++ " --help\" to get help".toList) := by
        simp only [main, hargv, getRemountMode, h_ro, h_rw, h_ch, h_help, h_h, n1, n2, n3,
          n4, n5, if_false, or_self]
      exact ⟨by rw [hmain]; rfl, hmain⟩

set_option maxRecDepth 100000 in
/-- C13 (counterexample): `remount root`, `remount rwx` and `remount check`
select ReadOnly, ReadWrite and Check although `argv[1]` is none of the
tokens, and `remount root` by an ordinary user ends with status 2, not 1. -/
theorem mode_token_prefix_accepted :
    getRemountMode "remount".toList "root".toList = Except.ok READ_ONLY
      ∧ getRemountMode "remount".toList "rwx".toList = Except.ok READ_WRITE
      ∧ getRemountMode "remount".toList "check".toList = Except.ok CHECK
      ∧ (main (sampleWorld ["remount", "root"] 1000 1000 none (fun _ _ => 0))).outcome
          = Outcome.exit 2 := by
  decide

set_option maxRecDepth 100000 in
/-- C13 (witness): `remount mount /` ends with status 1, the run being the
error message that names the mode and the program. -/
theorem mode_selected_by_leading_bytes_witness :
    (main (sampleWorld ["remount", "mount", "/"] 0 0 none (fun _ _ => 0))).outcome
        = Outcome.exit 1
      ∧ main (sampleWorld ["remount", "mount", "/"] 0 0 none (fun _ _ => 0))
        = die 1 ("Unknown mode \"".toList ++ cstr "mount".toList
            ++ "\"\nRun \"".toList ++ cstr "remount".toList
            ++ " --help\" to get help".toList) :=
  ((mode_selected_by_leading_bytes
      (sampleWorld ["remount", "mount", "/"] 0 0 none (fun _ _ => 0))).2
    "remount".toList "mount".toList ["/".toList] rfl).2.2.2
    (by decide) (by decide) (by decide) (by decide) (by decide)

/-! ## Non-empty mountpoints -/

theorem cstr_ne_nil_iff {l : List Char} :
    cstr l ≠ [] ↔ ∃ c t, l = c :: t ∧ c ≠ NUL := by
  cases l with
  | nil => simp [cstr]
  | cons c t =>
    by_cases hc : c = NUL
    · simp [cstr, hc]
    · simp [cstr, hc]

theorem cstr_strncpy_ne_nil {src : List Char} (h : cstr src ≠ []) :
    cstr (strncpy src MOUNTPOINT_MAX_PATH) ≠ [] := by
  obtain ⟨c, t, hsrc, hc⟩ := cstr_ne_nil_iff.1 h
  rw [cstr_ne_nil_iff]
  have hcs : cstr src = c :: cstr t := by
    subst hsrc
    simp [cstr, hc]
  have hM : MOUNTPOINT_MAX_PATH = 255 + 1 := rfl
  have e : strncpy src MOUNTPOINT_MAX_PATH
      = c :: ((cstr t).take 255
          ++ List.replicate (255 + 1 - ((cstr t).take 255).length.succ) NUL) := by
    simp only [strncpy, hcs, hM, List.take_succ_cons, List.cons_append, List.length_cons]
  exact ⟨c, _, e, hc⟩

theorem parseConfiguration_nonempty (w : World) :
    ∀ (fuel : Nat) (config : List Char) (mountpoints slots : List (List Char)),
      (∀ s ∈ mountpoints, cstr s ≠ []) →
      parseConfiguration w fuel config mountpoints = Except.ok slots →
      ∀ s ∈ slots, cstr s ≠ [] := by
  intro fuel
  induction fuel with
  | zero => intro config mountpoints slots _ h; simp [parseConfiguration] at h
  | succ fuel ih =>
    intro config mountpoints slots hm h
    simp only [parseConfiguration] at h
    split at h
    · split at h
      · simp only [Except.ok.injEq] at h
        subst h
        exact hm
      · rename_i buffer rest _
        split at h
        · exact ih _ _ _ hm h
        · rename_i hskip
          split at h
          · cases h
          · split at h
            · cases h
            · refine ih _ _ _ ?_ h
              intro s hs
              rcases List.mem_append.1 hs with h1 | h1
              · exact hm s h1
              · rw [List.mem_singleton] at h1
                subst h1
                apply cstr_strncpy_ne_nil
                rw [cstr_ne_nil_iff]
                cases buffer with
                | nil => simp at hskip
                | cons c t =>
                  simp only [List.getD_cons_zero, not_or] at hskip
                  obtain ⟨hc0, hc1, hc2, _⟩ := hskip
                  have hpos : strcspn (c :: t) "\r\n".toList
                      = (strcspn (c :: t) "\r\n".toList - 1) + 1 := by
                    have : "\r\n".toList = ['\r', '\n'] := rfl
                    simp [strcspn, cstr, hc0, this, hc1, hc2, List.takeWhile_cons]
                  rw [hpos, List.set_cons_succ]
                  exact ⟨c, _, rfl, hc0⟩
    · simp only [Except.ok.injEq] at h
      subst h
      exact hm

theorem cstr_strncpy_eq_nil {src : List Char} (h : cstr src = []) :
    cstr (strncpy src MOUNTPOINT_MAX_PATH) = [] := by
  have e : strncpy src MOUNTPOINT_MAX_PATH = List.replicate 256 NUL := by
    simp only [strncpy, h, List.take_nil, List.nil_append]
    rfl
  rw [e]
  rfl

theorem cstr_strncpy_ne_nil_iff (src : List Char) :
    cstr (strncpy src MOUNTPOINT_MAX_PATH) ≠ [] ↔ cstr src ≠ [] :=
  ⟨fun h hsrc => h (cstr_strncpy_eq_nil hsrc), cstr_strncpy_ne_nil⟩

/-- C14 (amended): in configuration-file mode, for every input, every
mountpoint that reaches the executor is a non-empty string; in argument mode
the resolved list holds, position by position, the slots of the first
fourteen arguments, and the mountpoint of each argument is non-empty exactly
when that argument is non-empty, whatever the other arguments are. -/
theorem resolved_mountpoints_nonempty (w : World) (args : List CStr)
    (slots : List (List Char))
    (hres : getMountpoints w args = Except.ok slots) :
    (args = [] → ∀ s ∈ slots, cstr s ≠ [])
      ∧ (args ≠ [] →
          slots = (args.take 14).map (fun a => strncpy a MOUNTPOINT_MAX_PATH))
      ∧ (∀ (i : Nat) (a : CStr), i < 14 → args[i]? = some a →
          slots[i]? = some (strncpy a MOUNTPOINT_MAX_PATH)
            ∧ (cstr (strncpy a MOUNTPOINT_MAX_PATH) ≠ [] ↔ cstr a ≠ [])) := by
  cases args with
  | nil =>
    refine ⟨fun _ => ?_, fun h => absurd rfl h, fun i a _ h => by simp at h⟩
    simp only [getMountpoints] at hres
    split at hres
    · cases hres
    · exact parseConfiguration_nonempty w _ _ _ _ (fun s hs => by cases hs) hres
  | cons arg args =>
    have heq := getMountpoints_args_eq w arg args slots hres
    refine ⟨fun h => List.noConfusion h, fun _ => heq, ?_⟩
    intro i a hi ha
    refine ⟨?_, cstr_strncpy_ne_nil_iff a⟩
    rw [heq, List.getElem?_map, List.getElem?_take_of_lt hi, ha]
    rfl

set_option maxRecDepth 100000 in
/-- C14 (counterexample): `remount ch ""` resolves to one empty mountpoint,
which is spliced into the probe command and printed. -/
theorem empty_argument_reaches_executor :
    getMountpoints (sampleWorld ["remount", "ch", ""] 1000 1000 none (fun _ _ => 0))
        ["".toList]
        = Except.ok [List.replicate 256 NUL]
      ∧ cstr (List.replicate 256 NUL) = []
      ∧ main (sampleWorld ["remount", "ch", ""] 1000 1000 none (fun _ _ => 0))
        = ⟨[Event.system (roProbe []), Event.stdout " is ro\n".toList], Outcome.exit 0⟩ := by
  decide

set_option maxRecDepth 100000 in
/-- C14 (witness): `remount ch "" /a` resolves to an empty mountpoint
followed by the non-empty mountpoint `/a`, and the sample configuration
file, with its blank line and its comment, to non-empty mountpoints. -/
theorem resolved_mountpoints_nonempty_witness :
    (([strncpy "".toList MOUNTPOINT_MAX_PATH, strncpy "/a".toList MOUNTPOINT_MAX_PATH]
          : List (List Char))[1]?
        = some (strncpy "/a".toList MOUNTPOINT_MAX_PATH)
      ∧ (cstr (strncpy "/a".toList MOUNTPOINT_MAX_PATH) ≠ [] ↔ cstr "/a".toList ≠ []))
      ∧ cstr (strncpy "/a".toList MOUNTPOINT_MAX_PATH) ≠ []
      ∧ cstr (strncpy "".toList MOUNTPOINT_MAX_PATH) = []
      ∧ cstr (strncpy "/b".toList MOUNTPOINT_MAX_PATH) ≠ [] :=
  ⟨(resolved_mountpoints_nonempty
      (sampleWorld ["remount", "ch", "", "/a"] 1000 1000 none (fun _ _ => 0))
      ["".toList, "/a".toList]
      [strncpy "".toList MOUNTPOINT_MAX_PATH, strncpy "/a".toList MOUNTPOINT_MAX_PATH]
      (by decide)).2.2 1 "/a".toList (by decide) rfl,
    by decide, by decide,
    (resolved_mountpoints_nonempty configWorld []
      (["/a".toList, "/b".toList].map (fun p => strncpy p MOUNTPOINT_MAX_PATH))
      (by decide)).1 rfl _ (by decide)⟩

/-! ## Configuration files without mountpoint lines -/

theorem parseConfiguration_all_skipped (w : World) (hcap : 2 ≤ w.BUFSIZ) :
    ∀ (ls : List (List Char)) (config : List Char) (fuel : Nat)
      (mountpoints : List (List Char)),
      splitLines config = ls → config.length < fuel →
      (∀ l ∈ ls, specSkipped l = true ∧ l.length < w.BUFSIZ) →
      parseConfiguration w fuel config mountpoints = Except.ok mountpoints := by
  intro ls
  induction ls with
  | nil =>
    intro config fuel mountpoints hsplit hfuel _
    have hc := splitLines_eq_nil hsplit
    subst hc
    obtain ⟨f, rfl⟩ : ∃ f, fuel = f + 1 := ⟨fuel - 1, by omega⟩
    have h0 : ¬ w.BUFSIZ = 0 := by omega
    have h1 : ¬ w.BUFSIZ = 1 := by omega
    simp [parseConfiguration, fgets, h0, h1]
  | cons l ls ih =>
    intro config fuel mountpoints hsplit hfuel hok
    obtain ⟨rest, hs, hrest, hne, hread, _⟩ := splitLines_cons config l ls hsplit
    obtain ⟨hskip, hfit⟩ := hok l (List.mem_cons_self _ _)
    obtain ⟨f, rfl⟩ : ∃ f, fuel = f + 1 := ⟨fuel - 1, by omega⟩
    have hpos : 0 < l.length := List.length_pos.2 hne
    have hf : rest.length < f := by
      rw [hs, List.length_append] at hfuel
      omega
    have hcond : l.getD 0 NUL = NUL ∨ l.getD 0 NUL = '\n' ∨ l.getD 0 NUL = '\r'
        ∨ l.getD 0 NUL = '#' := by
      cases l with
      | nil => exact absurd rfl hne
      | cons c t =>
        simp only [specSkipped, Bool.or_eq_true, beq_iff_eq] at hskip
        simp only [List.getD_cons_zero]
        tauto
    by_cases hk : mountpoints.length < MOUNTPOINT_MAX_COUNT
    · simp only [parseConfiguration, hk, if_true, fgets_line hne hs hfit hread, hcond]
      exact ih rest f mountpoints hrest hf (fun l' h' => hok l' (List.mem_cons_of_mem _ h'))
    · simp [parseConfiguration, hk]

/-- C15 (amended): in configuration-file mode with sufficient privilege for
the mode and a `BUFSIZ` that passes the size check, for every file whose
lines are all comments or blank and each fit the line buffer with its NUL,
the resolved mountpoint list is empty, the executor makes no backend
invocation, nothing is printed, and the exit status is 0. -/
theorem comments_only_config (w : World) (argv0 argv1 : CStr) (mode : remount_mode)
    (content : List Char)
    (hargv : w.argv = [argv0, argv1])
    (hmode : getRemountMode argv0 argv1 = Except.ok mode)
    (hperm : checkPermissions w mode = none)
    (hopen : w.config.orElse (fun _ => w.defconfig) = some content)
    (hcap : 308 ≤ w.BUFSIZ)
    (hlines : ∀ l ∈ splitLines content, specSkipped l = true ∧ l.length < w.BUFSIZ) :
    getMountpoints w [] = Except.ok []
      ∧ systemCalls (main w).trace = []
      ∧ stdoutOf (main w).trace = []
      ∧ stderrOf (main w).trace = []
      ∧ (main w).outcome = Outcome.exit 0 := by
  have hres : getMountpoints w [] = Except.ok [] := by
    simp only [getMountpoints, hopen]
    exact parseConfiguration_all_skipped w (by omega) _ content _ [] rfl
      (Nat.lt_succ_self _) hlines
  have hsize : ¬ w.BUFSIZ < MAX (MOUNTPOINT_MAX_PATH + REMOUNT_COMMAND_LENGTH)
      (MOUNTPOINT_MAX_PATH + CHECK_COMMAND_LENGTH) := by
    rw [max_command_size]
    omega
  have hcount : ¬ ([] : List (List Char)).length ≥ MOUNTPOINT_MAX_COUNT := by decide
  have hmain : main w = runCommand w mode [] := by
    simp only [main, hargv, hmode, hperm, hres, checkOverflowAndRun, hcount, if_false, hsize]
  refine ⟨hres, ?_⟩
  rw [hmain]
  cases mode <;> simp [runCommand, remountLoop, checkLoop, Run.after, systemCalls, stdoutOf,
    stderrOf]

theorem fgetsRead_replicate (c : Char) (hc : c ≠ '\n') :
    ∀ (m : Nat) (rest : List Char),
      fgetsRead m (List.replicate m c ++ rest) = (List.replicate m c, rest) := by
  intro m
  induction m with
  | zero => intro rest; simp [fgetsRead]
  | succ m ih =>
    intro rest
    simp [List.replicate_succ, fgetsRead, hc, ih]

set_option maxRecDepth 100000 in
/-- A comment line of `BUFSIZ` bytes before its newline is read in two
parts, and the second part, the last byte of the comment with the newline,
becomes a mountpoint. -/
theorem long_comment_split (w : World) (n : Nat) (hcap : w.BUFSIZ = n + 3)
    (hcfg : w.config = some ('#' :: List.replicate (n + 2) 'x' ++ ['\n']))
    (hmalloc : w.malloc 0 = true) :
    getMountpoints w [] = Except.ok [strncpy ['x'] MOUNTPOINT_MAX_PATH] := by
  have h0 : ¬ n + 3 = 0 := by omega
  have h1 : ¬ n + 3 = 1 := by omega
  have hx : ('x' : Char) ≠ '\n' := by decide
  have hrep : List.replicate (n + 2) 'x' ++ ['\n']
      = List.replicate (n + 1) 'x' ++ ['x', '\n'] := by
    rw [List.replicate_succ' (n + 1)]
    simp
  have hget1 : fgets (n + 3) ('#' :: List.replicate (n + 2) 'x' ++ ['\n'])
      = some ('#' :: List.replicate (n + 1) 'x', ['x', '\n']) := by
    have hm : n + 3 - 1 = (n + 1) + 1 := by omega
    have hhash : ('#' : Char) ≠ '\n' := by decide
    have hne : ¬ ('#' :: List.replicate (n + 1) 'x' ++ ['x', '\n'] : List Char) = [] := by
      simp
    rw [List.cons_append, hrep, ← List.cons_append]
    simp only [fgets, h0, h1, if_false, hne, hm]
    rw [List.cons_append, fgetsRead, if_neg hhash, fgetsRead_replicate 'x' hx]
  have hget2 : fgets (n + 3) ['x', '\n'] = some (['x', '\n'], []) := by
    have : n + 3 - 1 = (n + 1) + 1 := by omega
    simp only [fgets, h0, h1, if_false, reduceCtorEq, this, fgetsRead]
    simp
  have hget3 : fgets (n + 3) [] = none := by
    simp [fgets, h0, h1]
  have hlen : ('#' :: List.replicate (n + 2) 'x' ++ ['\n']).length + 1 = (n + 2) + 1 + 1 + 1 := by
    simp
  have hslot : strncpy (['x', '\n'].set (strcspn ['x', '\n'] "\r\n".toList) NUL)
      MOUNTPOINT_MAX_PATH = strncpy ['x'] MOUNTPOINT_MAX_PATH := by decide
  have hsk1 : ('#' :: List.replicate (n + 1) 'x').getD 0 NUL = '#' := rfl
  have hsk2 : ¬ ((['x', '\n'] : List Char).getD 0 NUL = NUL ∨ (['x', '\n'] : List Char).getD 0 NUL = '\n'
      ∨ (['x', '\n'] : List Char).getD 0 NUL = '\r' ∨ (['x', '\n'] : List Char).getD 0 NUL = '#') := by
    decide
  have hss : ¬ strcspn ['x', '\n'] "\r\n".toList ≥ MOUNTPOINT_MAX_PATH := by decide
  have hk0 : ([] : List (List Char)).length < MOUNTPOINT_MAX_COUNT := by decide
  have hk1 : ([] ++ [strncpy ['x'] MOUNTPOINT_MAX_PATH] : List (List Char)).length
      < MOUNTPOINT_MAX_COUNT := by decide
  simp only [getMountpoints, hcfg, Option.orElse, hlen, hcap]
  rw [parseConfiguration]
  simp only [hk0, if_true, hcap, hget1, hsk1, or_true]
  rw [parseConfiguration]
  simp only [hk0, if_true, hcap, hget2, hsk2, if_false, List.length_nil, hmalloc, hss,
    Bool.true_eq_false, hslot]
  rw [parseConfiguration]
  simp only [hk1, if_true, hcap, hget3, List.nil_append]
  simp [MOUNTPOINT_MAX_COUNT]

theorem splitLines_single (body : List Char) (h : '\n' ∉ body) :
    splitLines (body ++ ['\n']) = [body ++ ['\n']] := by
  induction body with
  | nil => simp [splitLines]
  | cons c body ih =>
    have hc : c ≠ '\n' := fun e => h (by simp [e])
    have hb : '\n' ∉ body := fun e => h (by simp [e])
    simp [splitLines, hc, ih hb]

set_option maxRecDepth 100000 in
/-- C15 (counterexample): with `BUFSIZ` 1024, a configuration file that is a
single comment line of 1024 bytes resolves to one mountpoint, the last byte
of the comment, which is probed and reported. -/
theorem long_comment_line_resolved :
    splitLines ('#' :: List.replicate 1023 'x' ++ ['\n'])
        = ['#' :: List.replicate 1023 'x' ++ ['\n']]
      ∧ specSkipped ('#' :: List.replicate 1023 'x' ++ ['\n']) = true
      ∧ getMountpoints longCommentWorld [] = Except.ok [strncpy ['x'] MOUNTPOINT_MAX_PATH]
      ∧ main longCommentWorld
        = ⟨[Event.system (roProbe ['x']), Event.stdout "x is ro\n".toList],
            Outcome.exit 0⟩ := by
  have hres : getMountpoints longCommentWorld []
      = Except.ok [strncpy ['x'] MOUNTPOINT_MAX_PATH] :=
    long_comment_split longCommentWorld 1021 rfl rfl rfl
  have hmode : getRemountMode "remount".toList "ch".toList = Except.ok CHECK := by decide
  have hperm : checkPermissions longCommentWorld CHECK = none := by decide
  have hargv : longCommentWorld.argv = ["remount".toList, "ch".toList] := rfl
  have hmain : main longCommentWorld
      = checkOverflowAndRun longCommentWorld CHECK [strncpy ['x'] MOUNTPOINT_MAX_PATH] := by
    simp only [main, hargv, hmode, hperm, hres]
  refine ⟨?_, rfl, hres, ?_⟩
  · have h : '\n' ∉ ('#' :: List.replicate 1023 'x') := by
      simp only [List.mem_cons, List.mem_replicate, not_or, not_and]
      exact ⟨by decide, fun _ => by decide⟩
    exact splitLines_single _ h
  · rw [hmain]
    decide

set_option maxRecDepth 100000 in
/-- C15 (witness): `remount ro` by root with a configuration file of
comments and blank lines only. -/
theorem comments_only_config_witness :
    (∀ l ∈ splitLines commentsOnlyConfig,
        specSkipped l = true ∧ l.length < commentsOnlyWorld.BUFSIZ)
      ∧ (getMountpoints commentsOnlyWorld [] = Except.ok []
        ∧ systemCalls (main commentsOnlyWorld).trace = []
        ∧ stdoutOf (main commentsOnlyWorld).trace = []
        ∧ stderrOf (main commentsOnlyWorld).trace = []
        ∧ (main commentsOnlyWorld).outcome = Outcome.exit 0) :=
  ⟨by decide,
    comments_only_config commentsOnlyWorld "remount".toList "ro".toList READ_ONLY
      commentsOnlyConfig rfl (by decide) (by decide) rfl (by decide) (by decide)⟩

/-! ## Exit statuses -/

/-- C16: exit status 255 is unreachable: for every input the run does not
end with status 255, every exit status of the program is one of 0 to 5, and
with a line buffer of two bytes or more and mountpoint arguments shorter
than `MOUNTPOINT_MAX_PATH` the run ends with such a status. -/
theorem exit_255_unreachable (w : World) :
    (main w).outcome ≠ Outcome.exit 255
      ∧ (∀ s, (main w).outcome = Outcome.exit s → s ≤ 5)
      ∧ (2 ≤ w.BUFSIZ →
          (∀ a ∈ (w.argv.drop 2).take 14, (cstr a).length < MOUNTPOINT_MAX_PATH) →
          ∃ s, s ≤ 5 ∧ (main w).outcome = Outcome.exit s) := by
  have hall : ∀ s, (main w).outcome = Outcome.exit s → s ≤ 5 := by
    intro s hs
    rcases main_shape w with ⟨_, ⟨t, ht, h⟩ | ⟨h, _⟩⟩
      | ⟨_, _, _, mode, slots, _, _, _, _, _, _, hmain⟩
    · rw [h] at hs
      cases hs
      exact ht
    · rw [h] at hs; cases hs
    · rw [hmain] at hs
      rcases runCommand_outcome w mode slots with h | h
      · rw [h] at hs
        cases hs
        omega
      · rw [h] at hs; cases hs
  refine ⟨?_, hall, ?_⟩
  · intro h
    have := hall 255 h
    omega
  · intro hbuf hargs
    rcases main_shape w with ⟨_, ⟨t, ht, h⟩ | ⟨_, h⟩⟩
      | ⟨a0, a1, args, mode, slots, hargv, _, _, hres, _, hcap, hmain⟩
    · exact ⟨t, ht, h⟩
    · omega
    · rw [hargv] at hargs
      simp only [List.drop_succ_cons, List.drop_zero] at hargs
      exact ⟨0, by omega, by
        rw [hmain]
        exact runCommand_terminated w mode slots hcap
          (getMountpoints_terminated w args slots hargs hres)⟩

set_option maxRecDepth 100000 in
/-- C16 (witness): `remount ro /A /B /C` by root ends with status 0, and
`remount ro /data /backup` by an ordinary user with status 2. -/
theorem exit_255_unreachable_witness :
    (∃ s, s ≤ 5 ∧ (main abcWorld).outcome = Outcome.exit s)
      ∧ (∃ s, s ≤ 5 ∧ (main roUserWorld).outcome = Outcome.exit s)
      ∧ (main abcWorld).outcome = Outcome.exit 0
      ∧ (main roUserWorld).outcome = Outcome.exit 2 :=
  ⟨(exit_255_unreachable abcWorld).2.2 (by decide) (by decide),
    (exit_255_unreachable roUserWorld).2.2 (by decide) (by decide),
    by decide, by decide⟩

/-! ## The path-length limit of configuration lines -/

theorem configLineOk_of_readable {cap : Nat} {l : List Char}
    (h : ConfigLineReadable cap l)
    (hlen : specSkipped l = true ∨ (specStrip l).length < MOUNTPOINT_MAX_PATH) :
    ConfigLineOk cap l := by
  obtain ⟨h1, h2, h3⟩ := h
  refine ⟨h1, h2, ?_⟩
  rcases hlen with hs | hl
  · exact Or.inl hs
  · rcases h3 with hs | hr
    · exact Or.inl hs
    · exact Or.inr ⟨hr, hl⟩

/-- The parser on a file of readable lines with fewer mountpoint lines than
slots left, one of them with a path of `MOUNTPOINT_MAX_PATH` bytes or more. -/
theorem parseConfiguration_too_long (w : World)
    (hmalloc : ∀ k, k < MOUNTPOINT_MAX_COUNT → w.malloc k = true) :
    ∀ (ls : List (List Char)) (config : List Char) (fuel : Nat)
      (mountpoints : List (List Char)),
      splitLines config = ls → config.length < fuel →
      (∀ l ∈ ls, ConfigLineReadable w.BUFSIZ l) →
      mountpoints.length + (ls.filter (fun l => !specSkipped l)).length
        < MOUNTPOINT_MAX_COUNT →
      (∃ l ∈ ls, specSkipped l = false ∧ MOUNTPOINT_MAX_PATH ≤ (specStrip l).length) →
      parseConfiguration w fuel config mountpoints
        = Except.error (die 3 "Path too large, maximum is 256".toList) := by
  intro ls
  induction ls with
  | nil => intro _ _ _ _ _ _ _ hex; simp at hex
  | cons l ls ih =>
    intro config fuel mountpoints hsplit hfuel hok hfew hex
    obtain ⟨rest, hs, hrest, hne, hread, hshape⟩ := splitLines_cons config l ls hsplit
    obtain ⟨hfit, hnul, hpath⟩ := hok l (List.mem_cons_self _ _)
    have hoks : ∀ l' ∈ ls, ConfigLineReadable w.BUFSIZ l' :=
      fun l' h' => hok l' (List.mem_cons_of_mem _ h')
    obtain ⟨f, rfl⟩ : ∃ f, fuel = f + 1 := ⟨fuel - 1, by omega⟩
    have hpos : 0 < l.length := List.length_pos.2 hne
    have hf : rest.length < f := by
      rw [hs, List.length_append] at hfuel
      omega
    have hk : mountpoints.length < MOUNTPOINT_MAX_COUNT := by omega
    have hfmt : fmtd MOUNTPOINT_MAX_PATH = "256".toList := by decide
    simp only [parseConfiguration, hk, if_true, fgets_line hne hs hfit hread]
    by_cases hskip : specSkipped l = true
    · rw [if_pos ((skip_condition hne hnul).2 hskip)]
      have hfew2 : mountpoints.length + (ls.filter (fun l => !specSkipped l)).length
          < MOUNTPOINT_MAX_COUNT := by
        simpa [List.filter_cons, hskip] using hfew
      have hex2 : ∃ l' ∈ ls, specSkipped l' = false
          ∧ MOUNTPOINT_MAX_PATH ≤ (specStrip l').length := by
        obtain ⟨l', hl', hs', hlen'⟩ := hex
        rcases List.mem_cons.1 hl' with rfl | hl'
        · rw [hskip] at hs'; cases hs'
        · exact ⟨l', hl', hs', hlen'⟩
      exact ih rest f mountpoints hrest hf hoks hfew2 hex2
    · rw [if_neg (fun h => hskip ((skip_condition hne hnul).1 h))]
      have hcr := hpath.resolve_left hskip
      have hbytes : pathBytes l = specStrip l := pathBytes_eq_specStrip hshape hcr
      have hm : ¬ w.malloc mountpoints.length = false := by
        rw [hmalloc _ hk]
        simp
      rw [if_neg hm, strncpy_line hnul, strcspn_of_not_mem hnul, hbytes]
      by_cases hlong : MOUNTPOINT_MAX_PATH ≤ (specStrip l).length
      · rw [if_pos hlong, hfmt]
        rfl
      · rw [if_neg hlong]
        have hfew2 : (mountpoints ++ [strncpy (specStrip l) MOUNTPOINT_MAX_PATH]).length
            + (ls.filter (fun l => !specSkipped l)).length < MOUNTPOINT_MAX_COUNT := by
          have : ((l :: ls).filter (fun l => !specSkipped l)).length
              = (ls.filter (fun l => !specSkipped l)).length + 1 := by
            simp [List.filter_cons, hskip]
          rw [this] at hfew
          simp only [List.length_append, List.length_singleton]
          omega
        have hex2 : ∃ l' ∈ ls, specSkipped l' = false
            ∧ MOUNTPOINT_MAX_PATH ≤ (specStrip l').length := by
          obtain ⟨l', hl', hs', hlen'⟩ := hex
          rcases List.mem_cons.1 hl' with rfl | hl'
          · exact absurd hlen' hlong
          · exact ⟨l', hl', hs', hlen'⟩
        exact ih rest f _ hrest hf hoks hfew2 hex2

/-- C18: in Check mode, for every mountpoint path, position
`CHECK_COMMAND_INDEX` = 15 of the assembled command holds the '?' of the
template, right after the 'r' of the mount-option pattern; writing 'o' there
gives exactly the read-only probe, writing 'w' after that gives exactly the
read-write probe, no other position of the command changes, the mountpoint
included; and these two are the commands the executor passes to the backend
for that mountpoint, the second only when the first returns non-zero. -/
theorem check_probe_commands (w : World) (p : CStr) (hp : IsPath p)
    (hcap : 308 ≤ w.BUFSIZ) :
    (CHECK_COMMAND_START ++ p ++ CHECK_COMMAND_END)[CHECK_COMMAND_INDEX]? = some '?'
      ∧ (CHECK_COMMAND_START ++ p ++ CHECK_COMMAND_END)[CHECK_COMMAND_INDEX - 1]? = some 'r'
      ∧ (CHECK_COMMAND_START ++ p ++ CHECK_COMMAND_END).set CHECK_COMMAND_INDEX 'o'
          = "awk '$4~/(^|,)ro($|,)/' /proc/mounts | grep -q \" ".toList ++ p ++ " \"".toList
      ∧ ((CHECK_COMMAND_START ++ p ++ CHECK_COMMAND_END).set CHECK_COMMAND_INDEX 'o').set
            CHECK_COMMAND_INDEX 'w'
          = "awk '$4~/(^|,)rw($|,)/' /proc/mounts | grep -q \" ".toList ++ p ++ " \"".toList
      ∧ (∀ i, i ≠ CHECK_COMMAND_INDEX →
          ((CHECK_COMMAND_START ++ p ++ CHECK_COMMAND_END).set CHECK_COMMAND_INDEX 'o')[i]?
              = (CHECK_COMMAND_START ++ p ++ CHECK_COMMAND_END)[i]?
            ∧ (((CHECK_COMMAND_START ++ p ++ CHECK_COMMAND_END).set CHECK_COMMAND_INDEX 'o').set
                  CHECK_COMMAND_INDEX 'w')[i]?
              = (CHECK_COMMAND_START ++ p ++ CHECK_COMMAND_END)[i]?)
      ∧ systemCalls (runCommand w CHECK [strncpy p MOUNTPOINT_MAX_PATH]).trace
          = (if w.system 0
                ("awk '$4~/(^|,)ro($|,)/' /proc/mounts | grep -q \" ".toList ++ p
                  ++ " \"".toList) = 0
             then ["awk '$4~/(^|,)ro($|,)/' /proc/mounts | grep -q \" ".toList ++ p
                    ++ " \"".toList]
             else ["awk '$4~/(^|,)ro($|,)/' /proc/mounts | grep -q \" ".toList ++ p
                    ++ " \"".toList,
                   "awk '$4~/(^|,)rw($|,)/' /proc/mounts | grep -q \" ".toList ++ p
                    ++ " \"".toList]) := by
  have hidx : CHECK_COMMAND_INDEX < CHECK_COMMAND_START.length := by decide
  have hidx1 : CHECK_COMMAND_INDEX - 1 < CHECK_COMMAND_START.length := by decide
  have hro := check_command_ro p
  have hrw := check_command_rw p
  refine ⟨?_, ?_, hro, ?_, ?_, ?_⟩
  · rw [List.append_assoc, List.getElem?_append_left hidx]
    decide
  · rw [List.append_assoc, List.getElem?_append_left hidx1]
    decide
  · rw [hro, hrw]
    rfl
  · intro i hi
    exact ⟨by rw [List.getElem?_set_ne (Ne.symm hi)],
      by rw [List.getElem?_set_ne (Ne.symm hi), List.getElem?_set_ne (Ne.symm hi)]⟩
  · have hps : ∀ q ∈ [p], IsPath q := by
      intro q hq
      rw [List.mem_singleton] at hq
      subst hq
      exact hp
    have hrun : runCommand w CHECK [strncpy p MOUNTPOINT_MAX_PATH]
        = checkLoop w ([p].map (fun q => strncpy q MOUNTPOINT_MAX_PATH)) 0 none := by
      simp [runCommand]
    rw [hrun, checkLoop_eq w hcap _ 0 none (slots_wellFormed hps), map_cstr_slots hps]
    simp only [checkLoopEvents, checkEvents, List.append_nil]
    have e1 : roProbe p = "awk '$4~/(^|,)ro($|,)/' /proc/mounts | grep -q \" ".toList ++ p
        ++ " \"".toList := rfl
    have e2 : rwProbe p = "awk '$4~/(^|,)rw($|,)/' /proc/mounts | grep -q \" ".toList ++ p
        ++ " \"".toList := rfl
    rw [← e1, ← e2]
    split <;> simp [systemCalls]

set_option maxRecDepth 100000 in
/-- C18 (witness): the probes of `/`. -/
theorem check_probe_commands_witness :
    systemCalls (runCommand rootCheckWorld CHECK [strncpy "/".toList MOUNTPOINT_MAX_PATH]).trace
        = ["awk '$4~/(^|,)ro($|,)/' /proc/mounts | grep -q \" / \"".toList,
           "awk '$4~/(^|,)rw($|,)/' /proc/mounts | grep -q \" / \"".toList]
      ∧ (CHECK_COMMAND_START ++ "/".toList ++ CHECK_COMMAND_END)[CHECK_COMMAND_INDEX]?
          = some '?' :=
  ⟨by decide, (check_probe_commands rootCheckWorld "/".toList (by decide) (by decide)).1⟩

/-! ## The arguments that are resolved -/

theorem parseArguments_malloc (w : World) :
    ∀ (argv : List CStr) (i : Nat) (mountpoints : List (List Char)),
      (∀ k, k < mountpoints.length + (MOUNTPOINT_MAX_COUNT - i) → w.malloc k = true) →
      parseArguments w i argv mountpoints
        = Except.ok (mountpoints
            ++ (argv.take (MOUNTPOINT_MAX_COUNT - i)).map
                (fun p => strncpy p MOUNTPOINT_MAX_PATH)) := by
  intro argv
  induction argv with
  | nil => intro i mountpoints _; simp [parseArguments]
  | cons arg argv ih =>
    intro i mountpoints hm
    simp only [parseArguments]
    by_cases hi : i < MOUNTPOINT_MAX_COUNT
    · obtain ⟨j, hj⟩ : ∃ j, MOUNTPOINT_MAX_COUNT - i = j + 1 :=
        ⟨MOUNTPOINT_MAX_COUNT - i - 1, by omega⟩
      have hj2 : MOUNTPOINT_MAX_COUNT - (i + 1) = j := by omega
      have h2 : ¬ w.malloc mountpoints.length = false := by
        rw [hm _ (by omega)]
        simp
      rw [if_pos hi, if_neg h2, ih (i + 1) _ (by
        intro k hk
        apply hm
        simp only [List.length_append, List.length_singleton] at hk
        omega), hj, hj2, List.take_succ_cons]
      simp
    · have h0 : MOUNTPOINT_MAX_COUNT - i = 0 := by omega
      rw [if_neg hi, h0]
      simp

/-- C19: in argument mode, whenever the list is resolved it is exactly the
slots of the first min(n, 14) mountpoint arguments in order, and it is
resolved when the first fourteen allocations succeed; a slot holds the first
256 bytes of its argument, padded with NUL when the argument is shorter; so
at most 14 mountpoints come from the command line, and the run never ends
with the too-many-mountpoints status 5. -/
theorem argument_list_is_first_fourteen (w : World) (argv0 argv1 arg : CStr)
    (args : List CStr) (hargv : w.argv = argv0 :: argv1 :: arg :: args) :
    (∀ slots, getMountpoints w (arg :: args) = Except.ok slots →
        slots = ((arg :: args).take 14).map (fun p => strncpy p MOUNTPOINT_MAX_PATH)
          ∧ slots.length = min (arg :: args).length 14)
      ∧ ((∀ k, k < 14 → w.malloc k = true) →
          getMountpoints w (arg :: args)
            = Except.ok (((arg :: args).take 14).map
                (fun p => strncpy p MOUNTPOINT_MAX_PATH)))
      ∧ (∀ a : CStr, strncpy a MOUNTPOINT_MAX_PATH
          = (cstr a).take 256 ++ List.replicate (256 - ((cstr a).take 256).length) NUL)
      ∧ (main w).outcome ≠ Outcome.exit 5 := by
  have heq : ∀ slots, getMountpoints w (arg :: args) = Except.ok slots →
      slots = ((arg :: args).take 14).map (fun p => strncpy p MOUNTPOINT_MAX_PATH)
        ∧ slots.length = min (arg :: args).length 14 := by
    intro slots h
    have e := getMountpoints_args_eq w arg args slots h
    refine ⟨e, ?_⟩
    rw [e, List.length_map, List.length_take]
    exact Nat.min_comm _ _
  refine ⟨heq, ?_, fun _ => rfl, ?_⟩
  · intro hm
    simp only [getMountpoints]
    rw [parseArguments_malloc w _ 2 [] (fun k hk => hm k (by
      simp only [List.length_nil, MOUNTPOINT_MAX_COUNT] at hk
      omega))]
    simp [MOUNTPOINT_MAX_COUNT]
  · rcases main_shape w with ⟨_, ⟨s, _, h⟩ | ⟨h, _⟩⟩
      | ⟨_, _, _, mode, slots, _, _, _, _, _, _, hmain⟩
    · intro h5
      rw [h] at h5
      cases h5
      unfold main at h
      simp only [hargv] at h
      split at h
      · rename_i r hr
        rcases (getRemountMode_error _ _ r hr).2 with h2 | h2 <;> rw [h2] at h <;> cases h
      · split at h
        · rename_i r hr
          rw [(checkPermissions_some w _ r hr).2] at h
          cases h
        · split at h
          · rename_i r hr
            simp only [getMountpoints] at hr
            rw [(parseArguments_error w _ _ _ r hr).2] at h
            cases h
          · rename_i slots hres
            have hlen := (heq slots hres).2
            have hlt : ¬ slots.length ≥ MOUNTPOINT_MAX_COUNT := by
              simp only [MOUNTPOINT_MAX_COUNT]
              omega
            simp only [checkOverflowAndRun, hlt, if_false] at h
            split at h
            · cases h
            · rcases runCommand_outcome w _ slots with h2 | h2 <;> rw [h2] at h <;> cases h
    · rw [h]; simp
    · rw [hmain]
      rcases runCommand_outcome w mode slots with h | h <;> rw [h] <;> simp

set_option maxRecDepth 100000 in
/-- C19 (witness): `remount ch /m1 ... /m17` resolves to the slots of
`/m1` ... `/m14`. -/
theorem argument_list_is_first_fourteen_witness :
    getMountpoints (sampleWorld seventeenArgs 0 0 none (fun _ _ => 0))
        ((seventeenArgs.drop 2).map String.toList)
        = Except.ok
            ((["/m1", "/m2", "/m3", "/m4", "/m5", "/m6", "/m7", "/m8", "/m9", "/m10",
                "/m11", "/m12", "/m13", "/m14"].map String.toList).map
              (fun p => strncpy p MOUNTPOINT_MAX_PATH))
      ∧ (main (sampleWorld seventeenArgs 0 0 none (fun _ _ => 0))).outcome
          ≠ Outcome.exit 5 :=
  ⟨((argument_list_is_first_fourteen (sampleWorld seventeenArgs 0 0 none (fun _ _ => 0))
        "remount".toList "ch".toList "/m1".toList
        (((seventeenArgs.drop 3).map String.toList)) rfl).2.1 (fun _ _ => rfl)),
    (argument_list_is_first_fourteen (sampleWorld seventeenArgs 0 0 none (fun _ _ => 0))
        "remount".toList "ch".toList "/m1".toList
        (((seventeenArgs.drop 3).map String.toList)) rfl).2.2.2⟩

/-! ## Further concrete inputs -/

set_option maxRecDepth 100000 in
/-- C11 (counterexample): `remount ch` with a configuration file of seventeen
mountpoint lines ends with the too-many-mountpoints status 5, the error
message its only event: the run fails and no mountpoint is processed. -/
theorem seventeen_lines_fatal :
    (specConfigPaths seventeenLines).length = 17
      ∧ main (sampleWorld ["remount", "ch"] 0 0 (some seventeenLines) (fun _ _ => 0))
        = die 5 "To many mountpoints, maximum is 16".toList := by
  decide

set_option maxRecDepth 100000 in
/-- C11 (witness): sixteen mountpoint lines followed by a line of 300 bytes,
which is never read: the run ends with status 5, not with the path-length
status 3. -/
theorem config_overflow_is_fatal_witness :
    getMountpoints overfullConfigWorld []
        = Except.ok (((specConfigPaths sixteenLines).take MOUNTPOINT_MAX_COUNT).map
            (fun p => strncpy p MOUNTPOINT_MAX_PATH))
      ∧ main overfullConfigWorld = die 5 ("To many mountpoints, maximum is 16".toList)
      ∧ (main overfullConfigWorld).outcome = Outcome.exit 5
      ∧ systemCalls (main overfullConfigWorld).trace = [] :=
  config_overflow_is_fatal overfullConfigWorld "remount".toList "ch".toList CHECK
    sixteenLines (List.replicate 300 'y' ++ ['\n']) rfl (by decide) (by decide) rfl
    (fun _ _ => rfl) (by decide) (by decide)

end Remount
